import Mathlib

/-!
Verification of the play-by-play factory-flow simulation engine
(`startPlayByPlaySimulation` / `animate` in
`src/components/factory/FactoryEditor.tsx`).

The engine is shallowly embedded: JavaScript numbers are modelled by
`JNum` (a finite rational, positive or negative infinity, or NaN, with
the IEEE-754 behaviour of the arithmetic and comparison operators that
the source uses), JavaScript `Map`s by association lists with
last-write-wins update, and the per-frame `animate` closure by pure
functions over an explicit token list.
-/

namespace FactoryFlow

/-- A JavaScript number: a finite rational, an infinity, or NaN.
Only the behaviours exercised by the source are modelled; negative
zero is identified with zero (the source never produces an observable
negative zero). -/
inductive JNum where
  | nan
  | inf
  | ninf
  | fin (q : ℚ)
deriving DecidableEq, Repr

/-- JavaScript addition. -/
def jadd : JNum → JNum → JNum
  | .nan, _ => .nan
  | _, .nan => .nan
  | .inf, .ninf => .nan
  | .ninf, .inf => .nan
  | .inf, _ => .inf
  | _, .inf => .inf
  | .ninf, _ => .ninf
  | _, .ninf => .ninf
  | .fin a, .fin b => .fin (a + b)

/-- JavaScript multiplication. -/
def jmul : JNum → JNum → JNum
  | .nan, _ => .nan
  | _, .nan => .nan
  | .inf, .inf => .inf
  | .inf, .ninf => .ninf
  | .ninf, .inf => .ninf
  | .ninf, .ninf => .inf
  | .inf, .fin b => if b = 0 then .nan else if 0 < b then .inf else .ninf
  | .fin a, .inf => if a = 0 then .nan else if 0 < a then .inf else .ninf
  | .ninf, .fin b => if b = 0 then .nan else if 0 < b then .ninf else .inf
  | .fin a, .ninf => if a = 0 then .nan else if 0 < a then .ninf else .inf
  | .fin a, .fin b => .fin (a * b)

/-- JavaScript division (x / 0 gives an infinity or NaN, never an error). -/
def jdiv : JNum → JNum → JNum
  | .nan, _ => .nan
  | _, .nan => .nan
  | .inf, .inf => .nan
  | .inf, .ninf => .nan
  | .ninf, .inf => .nan
  | .ninf, .ninf => .nan
  | .inf, .fin b => if 0 ≤ b then .inf else .ninf
  | .ninf, .fin b => if 0 ≤ b then .ninf else .inf
  | .fin _, .inf => .fin 0
  | .fin _, .ninf => .fin 0
  | .fin a, .fin b =>
      if b = 0 then (if a = 0 then .nan else if 0 < a then .inf else .ninf)
      else .fin (a / b)

/-- JavaScript `<=` (false whenever either side is NaN). -/
def jle : JNum → JNum → Bool
  | .nan, _ => false
  | _, .nan => false
  | .ninf, _ => true
  | _, .ninf => false
  | _, .inf => true
  | .inf, _ => false
  | .fin a, .fin b => a ≤ b

/-- JavaScript `<` (false whenever either side is NaN). -/
def jlt : JNum → JNum → Bool
  | .nan, _ => false
  | _, .nan => false
  | _, .ninf => false
  | .ninf, _ => true
  | .inf, _ => false
  | _, .inf => true
  | .fin a, .fin b => a < b

/-- JavaScript `>=`. -/
def jge (a b : JNum) : Bool := jle b a

/-- JavaScript `>`. -/
def jgt (a b : JNum) : Bool := jlt b a

/-- JavaScript `Math.min` (NaN-propagating). -/
def jmin (a b : JNum) : JNum :=
  match a, b with
  | .nan, _ => .nan
  | _, .nan => .nan
  | x, y => if jle x y then x else y

/-- JavaScript `Math.round` (half-up; on finite values `⌊q + 1/2⌋`). -/
def jround : JNum → JNum
  | .nan => .nan
  | .inf => .inf
  | .ninf => .ninf
  | .fin q => .fin (⌊q + 1/2⌋ : ℤ)

/-- JavaScript `x || d` for an optional numeric field `x` (the source
applies it to possibly-undefined data fields): `undefined` and `0` are
falsy and give the default. -/
def jsOrQ (o : Option ℚ) (d : ℚ) : ℚ :=
  match o with
  | none => d
  | some q => if q = 0 then d else q

/-- JavaScript `x || 0` for an optional `JNum` (used for
`transitEdges.get(e.id) || 0` and `nodeUtilizations.get(id) || 0`):
`undefined`, `0` and NaN are falsy. -/
def jsOrJ (o : Option JNum) (d : JNum) : JNum :=
  match o with
  | none => d
  | some v => if v = .fin 0 ∨ v = .nan then d else v

/-! ## Data model: nodes and edges as the simulation reads them -/

/-- The fields of `node.data` that the simulation reads
(`cycleTime`, `maxCapacity`; both may be absent, e.g. on group nodes). -/
structure NodeData where
  cycleTime : Option ℚ
  maxCapacity : Option ℚ
deriving DecidableEq, Repr

/-- A React Flow node as the simulation reads it: `id`, `type`
(`"equipment"` or `"group"`), optional `parentId` (group membership)
and its data. -/
structure FNode where
  id : String
  type : String
  parentId : Option String
  data : NodeData
deriving DecidableEq, Repr

/-- A React Flow edge as the simulation reads it: `id`, `source`,
`target` and the optional `data.transitTime`. -/
structure FEdge where
  id : String
  source : String
  target : String
  transitTime : Option ℚ
deriving DecidableEq, Repr

/-! ## JavaScript `Map` model

The source only ever observes its `Map`s through `get`, `has` and `set`
(no `Map` is iterated), so a `Map` is modelled as an association list
where `set` prepends and `get`/`has` take the most recent entry for a
key.  This is observationally equivalent to the JavaScript `Map` for
every observation the source performs. -/

/-- Models `Map.prototype.get`. -/
def mapGet {α : Type} (m : List (String × α)) (k : String) : Option α :=
  (m.find? (fun p => p.1 == k)).map (fun p => p.2)

/-- Models `Map.prototype.has`. -/
def mapHas {α : Type} (m : List (String × α)) (k : String) : Bool :=
  (m.find? (fun p => p.1 == k)).isSome

/-- Models `Map.prototype.set` (shadowing: the new entry is found first). -/
def mapSet {α : Type} (m : List (String × α)) (k : String) (v : α) :
    List (String × α) :=
  (k, v) :: m

theorem mapGet_mapSet_self {α : Type} (m : List (String × α)) (k : String)
    (v : α) : mapGet (mapSet m k v) k = some v := by
  simp [mapGet, mapSet, List.find?]

theorem mapGet_mapSet_ne {α : Type} (m : List (String × α)) (k k' : String)
    (v : α) (hne : k ≠ k') : mapGet (mapSet m k v) k' = mapGet m k' := by
  have hb : (k == k') = false := by simpa using hne
  simp [mapGet, mapSet, List.find?, hb]

theorem mapHas_iff_mapGet_isSome {α : Type} (m : List (String × α))
    (k : String) : mapHas m k = (mapGet m k).isSome := by
  simp [mapGet, mapHas]

/-! ## Topology resolver (`startPlayByPlaySimulation`, lines 144-226)

`edgeMap` groups edges by source (edge order preserved),
`groupChildrenMap` collects children from `parentId`, `startNodeIds`
are the pure sources, and `findConnectedNodes` is the depth-first walk
that computes the reachable (`connectedNodes`) set. -/

/-- The fold body of `edges.forEach` building `edgeMap`:
`sources.push({targetId, transitTime: edge.data?.transitTime || 0})`. -/
def edgeMapStep (m : List (String × List (String × ℚ))) (e : FEdge) :
    List (String × List (String × ℚ)) :=
  mapSet m e.source (((mapGet m e.source).getD []) ++ [(e.target, jsOrQ e.transitTime 0)])

/-- The `edgeMap` built from the edge list. -/
def buildEdgeMap (edges : List FEdge) : List (String × List (String × ℚ)) :=
  edges.foldl edgeMapStep []

/-- The value of `edgeMap.get(k) || []` — the adjacency list actually consumed by the
engine (`nextNodes`, `outgoingEdges`). -/
def edgeMapGetD (edges : List FEdge) (k : String) : List (String × ℚ) :=
  (mapGet (buildEdgeMap edges) k).getD []

theorem mapGet_edgeMapStep_getD (m : List (String × List (String × ℚ)))
    (e : FEdge) (k : String) :
    (mapGet (edgeMapStep m e) k).getD [] =
      ((mapGet m k).getD []) ++
        (if e.source = k then [(e.target, jsOrQ e.transitTime 0)] else []) := by
  unfold edgeMapStep
  by_cases h : e.source = k
  · subst h
    rw [mapGet_mapSet_self]
    simp
  · rw [mapGet_mapSet_ne _ _ _ _ h]
    simp [h]

/-- Characterisation of the grouping fold: the adjacency list for `k` is
the edges with source `k`, in input order, paired with their
`transitTime || 0`. -/
theorem edgeMapGetD_eq (edges : List FEdge) (k : String) :
    edgeMapGetD edges k =
      (edges.filter (fun e => e.source == k)).map
        (fun e => (e.target, jsOrQ e.transitTime 0)) := by
  unfold edgeMapGetD buildEdgeMap
  suffices h : ∀ m : List (String × List (String × ℚ)),
      (mapGet (edges.foldl edgeMapStep m) k).getD [] =
        ((mapGet m k).getD []) ++
          (edges.filter (fun e => e.source == k)).map
            (fun e => (e.target, jsOrQ e.transitTime 0)) by
    simpa [mapGet] using h []
  induction edges with
  | nil => intro m; simp
  | cons e es ih =>
    intro m
    rw [List.foldl_cons, ih (edgeMapStep m e), mapGet_edgeMapStep_getD]
    by_cases h : e.source = k
    · have hb : (e.source == k) = true := by simpa using h
      simp [h, hb, List.filter]
    · have hb : (e.source == k) = false := by simpa using h
      simp [h, hb, List.filter]

theorem mapHas_edgeMapStep (m : List (String × List (String × ℚ)))
    (e : FEdge) (k : String) :
    mapHas (edgeMapStep m e) k = (mapHas m k || (e.source == k)) := by
  unfold edgeMapStep mapSet mapHas
  by_cases h : e.source = k
  · have hb : (e.source == k) = true := by simpa using h
    simp [List.find?, hb]
  · have hb : (e.source == k) = false := by simpa using h
    simp [List.find?, hb]

/-- The test `edgeMap.has(k)` holds exactly when some edge has source `k`. -/
theorem mapHas_buildEdgeMap (edges : List FEdge) (k : String) :
    mapHas (buildEdgeMap edges) k = edges.any (fun e => e.source == k) := by
  unfold buildEdgeMap
  suffices h : ∀ m : List (String × List (String × ℚ)),
      mapHas (edges.foldl edgeMapStep m) k =
        (mapHas m k || edges.any (fun e => e.source == k)) by
    simpa [mapHas] using h []
  induction edges with
  | nil => intro m; simp
  | cons e es ih =>
    intro m
    rw [List.foldl_cons, ih (edgeMapStep m e), mapHas_edgeMapStep]
    simp [Bool.or_assoc, Bool.or_comm, Bool.or_left_comm]

/-- The fold body building `groupChildrenMap` from `node.parentId`. -/
def groupChildrenStep (m : List (String × List String)) (n : FNode) :
    List (String × List String) :=
  match n.parentId with
  | some pid => mapSet m pid (((mapGet m pid).getD []) ++ [n.id])
  | none => m

/-- The `groupChildrenMap` built from the node list. -/
def buildGroupChildrenMap (nodes : List FNode) : List (String × List String) :=
  nodes.foldl groupChildrenStep []

/-- Models `nodeDataMap = new Map(nodes.map(n => [n.id, n.data]))`. -/
def buildNodeDataMap (nodes : List FNode) : List (String × NodeData) :=
  nodes.foldl (fun m n => mapSet m n.id n.data) []

/-- Membership test of `new Set(edges.map(e => e.target))`. -/
def isEdgeTarget (edges : List FEdge) (k : String) : Bool :=
  edges.any (fun e => e.target == k)

/-- The `startNodeIds` list: nodes with no incoming edge and at least one
outgoing edge, in node-list order. -/
def startNodeIds (nodes : List FNode) (edges : List FEdge) : List String :=
  (nodes.filter (fun n =>
    !isEdgeTarget edges n.id &&
    mapHas (buildEdgeMap edges) n.id &&
    decide (((mapGet (buildEdgeMap edges) n.id).getD []).length > 0))).map
      (fun n => n.id)

/-- Models `connectedNodes.add` (a `Set`, modelled as a duplicate-free list in
insertion order). -/
def setAdd (s : List String) (x : String) : List String :=
  if s.contains x then s else s ++ [x]

/-- The recursive depth-first walk `findConnectedNodes`, with explicit
fuel bounding the recursion depth (the source recursion always
terminates because `connectedNodes` grows; `connectedFuel` below is a
sufficient bound). Visiting a node adds it and, if it is a group key,
all its children; edge targets are then visited recursively — but a
node already present in the set returns immediately, so the children
just added are never themselves expanded. -/
def findConnectedNodes (edges : List FEdge) (gcm : List (String × List String)) :
    Nat → String → List String → List String
  | 0, _, visited => visited
  | fuel + 1, nodeId, visited =>
    if visited.contains nodeId then visited
    else
      (edgeMapGetD edges nodeId).foldl
        (fun v t => findConnectedNodes edges gcm fuel t.1 v)
        (match mapGet gcm nodeId with
         | some children => children.foldl setAdd (setAdd visited nodeId)
         | none => setAdd visited nodeId)

/-- A recursion-depth bound sufficient for the walk: every call either
returns at once or adds a fresh id drawn from the node ids and the edge
endpoints. -/
def connectedFuel (nodes : List FNode) (edges : List FEdge) : Nat :=
  nodes.length + 2 * edges.length + 1

/-- The `connectedNodes` set after the walks from every start node. -/
def connectedNodes (nodes : List FNode) (edges : List FEdge) : List String :=
  (startNodeIds nodes edges).foldl
    (fun v s =>
      findConnectedNodes edges (buildGroupChildrenMap nodes)
        (connectedFuel nodes edges) s v) []

/-! ## Flow tokens and run start -/

/-- One entry of `activePaths` — the token record the engine threads
through the animation loop.  `isGroup`/`groupChildren` are the optional
fields of the object literals in the source (`undefined` when a literal
omits them). -/
structure Path where
  nodeId : String
  progress : JNum
  inTransit : Bool
  transitTo : String
  transitTime : ℚ
  transitProgress : JNum
  isGroup : Option Bool
  groupChildren : Option (List String)
deriving DecidableEq, Repr

/-- Models `nodes.find(n => n.id === id)?.type === 'group'`. -/
def isGroupNode (nodes : List FNode) (id : String) : Bool :=
  match nodes.find? (fun n => n.id == id) with
  | some n => n.type == "group"
  | none => false

/-- The initial token for a start node (lines 213-222). -/
def mkStartPath (nodes : List FNode) (id : String) : Path :=
  { nodeId := id
    progress := .fin 0
    inTransit := false
    transitTo := ""
    transitTime := 0
    transitProgress := .fin 0
    isGroup := some (isGroupNode nodes id)
    groupChildren := mapGet (buildGroupChildrenMap nodes) id }

/-- Models `startPlayByPlaySimulation` up to the point where the animation is
scheduled: `none` models the `NoEntryPoint` early return (toast shown,
no token created, no frame requested); `some paths` is the initial
active token set, one `AtNode` token per start node. -/
def startSimulation (nodes : List FNode) (edges : List FEdge) :
    Option (List Path) :=
  if startNodeIds nodes edges = [] then none
  else some ((startNodeIds nodes edges).map (mkStartPath nodes))

/-! ## Token engine — one tick of `animate` (lines 298-433)

The loop body is independent per token (it reads only the token and the
immutable run context and appends to the accumulators), so one tick is
the concatenation of per-token contributions. -/

/-- The immutable run context captured by the `animate` closure. -/
structure SimEnv where
  nodes : List FNode
  edges : List FEdge
  simulationSpeed : ℚ
deriving Repr

/-- The `delta * simulationSpeed` effective elapsed time of a tick. -/
def effDt (env : SimEnv) (delta : ℚ) : ℚ := delta * env.simulationSpeed

/-- The update `path.transitProgress += delta * simulationSpeed / path.transitTime`
(an unguarded division: `transitTime = 0` yields an infinity or NaN). -/
def transitNewProgress (env : SimEnv) (delta : ℚ) (p : Path) : JNum :=
  jadd p.transitProgress (jdiv (.fin (effDt env delta)) (.fin p.transitTime))

/-- The arrival test `transitProgress >= 1 || transitTime <= 0`. -/
def transitArrives (env : SimEnv) (delta : ℚ) (p : Path) : Bool :=
  jge (transitNewProgress env delta p) (.fin 1) || decide (p.transitTime ≤ 0)

/-- The token constructed on arrival (lines 317-324).  Note that the
literal carries neither `isGroup` nor `groupChildren`. -/
def arrivalPath (p : Path) : Path :=
  { nodeId := p.transitTo
    progress := .fin 0
    inTransit := false
    transitTo := ""
    transitTime := 0
    transitProgress := .fin 0
    isGroup := none
    groupChildren := none }

/-- A node's effective cycle time as the tick computes it:
`(cycleTime || 0) / (maxCapacity || 1)` (plain JS division on the
rationals; the engine then divides `dt` by it with `jdiv`). -/
def adjustedCycle (nd : NodeData) : ℚ :=
  jsOrQ nd.cycleTime 0 / jsOrQ nd.maxCapacity 1

/-- One child's contribution to the group branch's `minCycleTime` fold
(children missing from `nodeDataMap` are skipped). -/
def minCycleStep (ndm : List (String × NodeData)) (m : JNum) (c : String) :
    JNum :=
  match mapGet ndm c with
  | some cd => jmin m (.fin (adjustedCycle cd))
  | none => m

/-- The group branch's `minCycleTime` fold over the children (the fold
starts at `Infinity`). -/
def groupMinCycle (ndm : List (String × NodeData)) (children : List String) :
    JNum :=
  children.foldl (minCycleStep ndm) .inf

/-- The `cycleDuration` used for a token's progress increment this tick:
the group branch (taken iff `path.isGroup && path.groupChildren` is
truthy) uses the minimum child cycle time, defaulting to `1` when that
minimum is still `Infinity`; the normal branch uses the node's own
adjusted cycle time. -/
def cycleDuration (env : SimEnv) (nd : NodeData) (p : Path) : JNum :=
  if p.isGroup = some true ∧ p.groupChildren.isSome then
    let m := groupMinCycle (buildNodeDataMap env.nodes) (p.groupChildren.getD [])
    if m = .inf then .fin 1 else m
  else .fin (adjustedCycle nd)

/-- The update `path.progress += delta * simulationSpeed / cycleDuration`. -/
def atNodeNewProgress (env : SimEnv) (delta : ℚ) (nd : NodeData) (p : Path) :
    JNum :=
  jadd p.progress (jdiv (.fin (effDt env delta)) (cycleDuration env nd p))

/-- The fan-out token for one outgoing edge `(targetId, transitTime)` of
a completing node (lines 371-381): the target's group information is
computed and stored on the transit token. -/
def fanOutPath (env : SimEnv) (fromId : String) (t : String × ℚ) : Path :=
  { nodeId := fromId
    progress := .fin 1
    inTransit := true
    transitTo := t.1
    transitTime := t.2
    transitProgress := .fin 0
    isGroup := some (isGroupNode env.nodes t.1)
    groupChildren := mapGet (buildGroupChildrenMap env.nodes) t.1 }

/-- The contributions of one token to the tick's accumulators
(`nextActivePaths`, `activeNodeIds`, `transitEdges`). -/
structure StepOut where
  nextPaths : List Path
  activeIds : List String
  transitMarks : List (String × JNum)
deriving Repr

/-- One iteration of the `activePaths.forEach` body. -/
def stepPath (env : SimEnv) (delta : ℚ) (p : Path) : StepOut :=
  if p.inTransit then
    let tp := transitNewProgress env delta p
    let marks :=
      if p.transitTime > 0 then
        match env.edges.find? (fun e => e.source == p.nodeId && e.target == p.transitTo) with
        | some e => [(e.id, tp)]
        | none => []
      else []
    if transitArrives env delta p then
      { nextPaths := [arrivalPath p]
        activeIds := [p.transitTo]
        transitMarks := marks }
    else
      { nextPaths := [{ p with transitProgress := tp }]
        activeIds := []
        transitMarks := marks }
  else
    match mapGet (buildNodeDataMap env.nodes) p.nodeId with
    | none => { nextPaths := [], activeIds := [], transitMarks := [] }
    | some nd =>
      let actives :=
        if p.isGroup = some true ∧ p.groupChildren.isSome then
          p.nodeId :: p.groupChildren.getD []
        else [p.nodeId]
      let newProgress := atNodeNewProgress env delta nd p
      if jge newProgress (.fin 1) then
        { nextPaths := (edgeMapGetD env.edges p.nodeId).map (fanOutPath env p.nodeId)
          activeIds := actives
          transitMarks := [] }
      else
        { nextPaths := [{ p with progress := newProgress }]
          activeIds := actives
          transitMarks := [] }

/-- The next active token set after one tick. -/
def tickPaths (env : SimEnv) (delta : ℚ) (paths : List Path) : List Path :=
  paths.flatMap (fun p => (stepPath env delta p).nextPaths)

/-- The `activeNodeIds` accumulated during one tick (as a list;
membership is the only observation the presentation makes of the set). -/
def tickActiveIds (env : SimEnv) (delta : ℚ) (paths : List Path) : List String :=
  paths.flatMap (fun p => (stepPath env delta p).activeIds)

/-- The `transitEdges` map accumulated during one tick. -/
def tickTransitMarks (env : SimEnv) (delta : ℚ) (paths : List Path) :
    List (String × JNum) :=
  paths.flatMap (fun p => (stepPath env delta p).transitMarks)

/-- Models `transitEdges.get(id)` with last-write-wins (each `forEach` iteration
`set`s, so the latest entry for a key is the one observed). -/
def marksGet (marks : List (String × JNum)) (k : String) : Option JNum :=
  (marks.reverse.find? (fun p => p.1 == k)).map (fun p => p.2)

/-- Per-node presentation after a tick: `active` flag. -/
def nodeActiveFlag (env : SimEnv) (delta : ℚ) (paths : List Path)
    (id : String) : Bool :=
  (tickActiveIds env delta paths).contains id

/-- Per-node presentation after a tick:
`nextActivePaths.find(p => p.nodeId === node.id && !p.inTransit)?.progress`. -/
def nodeProgressField (env : SimEnv) (delta : ℚ) (paths : List Path)
    (id : String) : Option JNum :=
  ((tickPaths env delta paths).find?
    (fun p => p.nodeId == id && !p.inTransit)).map (fun p => p.progress)

/-- Per-edge presentation after a tick: `(transitInProgress, transitProgress)`. -/
def edgeSnapshot (env : SimEnv) (delta : ℚ) (paths : List Path)
    (edgeId : String) : Bool × JNum :=
  let marks := tickTransitMarks env delta paths
  ((marksGet marks edgeId).isSome, jsOrJ (marksGet marks edgeId) (.fin 0))

/-- The primary-unit position reported after a tick (lines 415-430):
the head of the new active set if it is not in transit, else `null`. -/
def tickUnitPosition (env : SimEnv) (delta : ℚ) (paths : List Path) :
    Option (String × JNum) :=
  match tickPaths env delta paths with
  | [] => none
  | p :: _ => if p.inTransit then none else some (p.nodeId, p.progress)

/-- Iterated ticks with a fixed frame delta. -/
def iterTick (env : SimEnv) (delta : ℚ) : Nat → List Path → List Path
  | 0, paths => paths
  | k + 1, paths => iterTick env delta k (tickPaths env delta paths)

/-! ## Completion analyzer (lines 238-295)

Runs on the first tick that finds `activePaths` empty: a single pass
over the node list tracking a running maximum effective cycle time and
assigning utilizations against the running maximum. -/

/-- The analyzer's effective cycle time:
`maxCapacity > 1 ? cycleTime / maxCapacity : cycleTime`. -/
def analyzerAdjustedCycle (nd : NodeData) : ℚ :=
  if jsOrQ nd.maxCapacity 1 > 1 then jsOrQ nd.cycleTime 0 / jsOrQ nd.maxCapacity 1
  else jsOrQ nd.cycleTime 0

/-- The analyzer's running state: the utilization map, the current
bottleneck candidate and the running maximum effective cycle time. -/
structure AnalyzerState where
  utils : List (String × JNum)
  bottleneckId : String
  maxCycleTime : ℚ
deriving Repr

/-- One iteration of the analyzer's `nodes.forEach` body. -/
def analyzerStep (connected : List String) (ndm : List (String × NodeData))
    (st : AnalyzerState) (node : FNode) : AnalyzerState :=
  if !(connected.contains node.id) then st
  else
    match mapGet ndm node.id with
    | none => st
    | some nd =>
      let adjusted := analyzerAdjustedCycle nd
      let maxC := if adjusted > st.maxCycleTime then adjusted else st.maxCycleTime
      let bid := if adjusted > st.maxCycleTime then node.id else st.bottleneckId
      let utilization :=
        jmin (.fin 100) (jround (jmul (jdiv (.fin adjusted) (.fin maxC)) (.fin 100)))
      { utils := mapSet st.utils node.id utilization
        bottleneckId := bid
        maxCycleTime := maxC }

/-- The analyzer pass (`bottleneckId` starts at `startNodeIds[0]`,
`maxCycleTime` at `0`). -/
def runAnalyzer (nodes : List FNode) (edges : List FEdge) : AnalyzerState :=
  nodes.foldl
    (analyzerStep (connectedNodes nodes edges) (buildNodeDataMap nodes))
    { utils := []
      bottleneckId := (startNodeIds nodes edges).headD ""
      maxCycleTime := 0 }

/-- The final presentation written for one node id:
`(active, utilization, bottleneck)`.  Unreachable nodes get
`(false, 0, false)`; reachable ones `(false, utils.get(id) || 0,
id === bottleneckId)`. -/
def analyzerNodeView (nodes : List FNode) (edges : List FEdge) (id : String) :
    Bool × JNum × Bool :=
  let st := runAnalyzer nodes edges
  if (connectedNodes nodes edges).contains id then
    (false, jsOrJ (mapGet st.utils id) (.fin 0), id == st.bottleneckId)
  else
    (false, .fin 0, false)

/-! ## Concrete graphs used by the individual claims -/

/-- Equipment node with explicit cycle time and capacity. -/
def mkEquip (id : String) (ct cap : ℚ) : FNode :=
  ⟨id, "equipment", none, ⟨some ct, some cap⟩⟩

/-- Edge with explicit transit time. -/
def mkEdge (id s t : String) (tt : ℚ) : FEdge :=
  ⟨id, s, t, some tt⟩

/-- C6 scenario: A→B→C with cycle times 10, 4, 4, capacity 1, transit
time 1 on both edges. -/
def c6nodes : List FNode := [mkEquip "A" 10 1, mkEquip "B" 4 1, mkEquip "C" 4 1]

def c6edges : List FEdge := [mkEdge "eAB" "A" "B" 1, mkEdge "eBC" "B" "C" 1]

def c6env : SimEnv := ⟨c6nodes, c6edges, 1⟩

def c6init : List Path := (startSimulation c6nodes c6edges).getD []

/-- Splitting an iterated run: the last `b` ticks run first. -/
theorem iterTick_add (env : SimEnv) (delta : ℚ) (a b : Nat) (paths : List Path) :
    iterTick env delta (a + b) paths =
      iterTick env delta a (iterTick env delta b paths) := by
  induction b generalizing paths with
  | zero => rfl
  | succ b ih =>
    have : a + (b + 1) = (a + b) + 1 := rfl
    rw [this, iterTick, iterTick, ih]

/-! ### C6: the concrete A→B→C run, tick by tick -/

def c6pA (q : ℚ) : Path := ⟨"A", .fin q, false, "", 0, .fin 0, some false, none⟩

def c6tAB : Path := ⟨"A", .fin 1, true, "B", 1, .fin 0, some false, none⟩

def c6pB (q : ℚ) : Path := ⟨"B", .fin q, false, "", 0, .fin 0, none, none⟩

def c6tBC : Path := ⟨"B", .fin 1, true, "C", 1, .fin 0, some false, none⟩

def c6pC (q : ℚ) : Path := ⟨"C", .fin q, false, "", 0, .fin 0, none, none⟩

theorem c6ndmA : mapGet (buildNodeDataMap c6nodes) "A" =
    some ⟨some 10, some 1⟩ := by decide

theorem c6ndmB : mapGet (buildNodeDataMap c6nodes) "B" =
    some ⟨some 4, some 1⟩ := by decide

theorem c6ndmC : mapGet (buildNodeDataMap c6nodes) "C" =
    some ⟨some 4, some 1⟩ := by decide

theorem c6adjA : edgeMapGetD c6edges "A" = [("B", 1)] := by decide

theorem c6adjB : edgeMapGetD c6edges "B" = [("C", 1)] := by decide

theorem c6adjC : edgeMapGetD c6edges "C" = [] := by decide

theorem c6gcmB : mapGet (buildGroupChildrenMap c6nodes) "B" = none := by decide

theorem c6gcmC : mapGet (buildGroupChildrenMap c6nodes) "C" = none := by decide

theorem c6igB : isGroupNode c6nodes "B" = false := by decide

theorem c6igC : isGroupNode c6nodes "C" = false := by decide

set_option maxRecDepth 10000 in
theorem c6initEq : c6init = [c6pA 0] := by decide

set_option maxHeartbeats 1000000 in
theorem c6phaseA : iterTick c6env 1 10 [c6pA 0] = [c6tAB] := by
  norm_num [iterTick, tickPaths, stepPath, List.flatMap, atNodeNewProgress,
    cycleDuration, adjustedCycle, effDt, jadd, jdiv, jge, jle, jsOrQ,
    fanOutPath, c6pA, c6tAB, c6ndmA, c6adjA, c6gcmB, c6igB, c6env]

theorem c6phaseAB : iterTick c6env 1 1 [c6tAB] = [c6pB 0] := by
  norm_num [iterTick, tickPaths, stepPath, List.flatMap, transitArrives,
    transitNewProgress, arrivalPath, effDt, jadd, jdiv, jge, jle,
    c6tAB, c6pB, c6env, c6edges, mkEdge, List.find?]

set_option maxHeartbeats 1000000 in
theorem c6phaseB : iterTick c6env 1 4 [c6pB 0] = [c6tBC] := by
  norm_num [iterTick, tickPaths, stepPath, List.flatMap, atNodeNewProgress,
    cycleDuration, adjustedCycle, effDt, jadd, jdiv, jge, jle, jsOrQ,
    fanOutPath, c6pB, c6tBC, c6ndmB, c6adjB, c6gcmC, c6igC, c6env]

theorem c6phaseBC : iterTick c6env 1 1 [c6tBC] = [c6pC 0] := by
  norm_num [iterTick, tickPaths, stepPath, List.flatMap, transitArrives,
    transitNewProgress, arrivalPath, effDt, jadd, jdiv, jge, jle,
    c6tBC, c6pC, c6env, c6edges, mkEdge, List.find?]

set_option maxHeartbeats 1000000 in
theorem c6phaseC : iterTick c6env 1 4 [c6pC 0] = [] := by
  norm_num [iterTick, tickPaths, stepPath, List.flatMap, atNodeNewProgress,
    cycleDuration, adjustedCycle, effDt, jadd, jdiv, jge, jle, jsOrQ,
    fanOutPath, c6pC, c6ndmC, c6adjC, c6env]

/-- The C6 run empties its active set after 20 one-second ticks. -/
theorem c6run : iterTick c6env 1 20 c6init = [] := by
  rw [c6initEq, show (20 : Nat) = 4 + (1 + (4 + (1 + 10))) from rfl,
    iterTick_add, iterTick_add, iterTick_add, iterTick_add,
    c6phaseA, c6phaseAB, c6phaseB, c6phaseBC, c6phaseC]

def c6ndmList : List (String × NodeData) :=
  [("C", ⟨some 4, some 1⟩), ("B", ⟨some 4, some 1⟩), ("A", ⟨some 10, some 1⟩)]

theorem c6ndmEq : buildNodeDataMap c6nodes = c6ndmList := by decide

set_option maxRecDepth 10000 in
theorem c6connected : connectedNodes c6nodes c6edges = ["A", "B", "C"] := by
  decide

theorem c6startEq : startNodeIds c6nodes c6edges = ["A"] := by decide

theorem c6lookA : mapGet c6ndmList "A" = some ⟨some 10, some 1⟩ := by decide

theorem c6lookB : mapGet c6ndmList "B" = some ⟨some 4, some 1⟩ := by decide

theorem c6lookC : mapGet c6ndmList "C" = some ⟨some 4, some 1⟩ := by decide

theorem c6memA : (["A", "B", "C"].contains "A") = true := by decide

theorem c6memB : (["A", "B", "C"].contains "B") = true := by decide

theorem c6memC : (["A", "B", "C"].contains "C") = true := by decide

theorem c6astepA :
    analyzerStep ["A", "B", "C"] c6ndmList
      { utils := [], bottleneckId := "A", maxCycleTime := 0 } (mkEquip "A" 10 1) =
    { utils := [("A", .fin 100)], bottleneckId := "A", maxCycleTime := 10 } := by
  norm_num [analyzerStep, analyzerAdjustedCycle, jsOrQ, jmin, jround, jmul,
    jdiv, jle, mapSet, mkEquip, c6lookA, c6memA]

theorem c6astepB :
    analyzerStep ["A", "B", "C"] c6ndmList
      { utils := [("A", .fin 100)], bottleneckId := "A", maxCycleTime := 10 }
      (mkEquip "B" 4 1) =
    { utils := [("B", .fin 40), ("A", .fin 100)], bottleneckId := "A",
      maxCycleTime := 10 } := by
  norm_num [analyzerStep, analyzerAdjustedCycle, jsOrQ, jmin, jround, jmul,
    jdiv, jle, mapSet, mkEquip, c6lookB, c6memB]

theorem c6astepC :
    analyzerStep ["A", "B", "C"] c6ndmList
      { utils := [("B", .fin 40), ("A", .fin 100)], bottleneckId := "A",
        maxCycleTime := 10 } (mkEquip "C" 4 1) =
    { utils := [("C", .fin 40), ("B", .fin 40), ("A", .fin 100)],
      bottleneckId := "A", maxCycleTime := 10 } := by
  norm_num [analyzerStep, analyzerAdjustedCycle, jsOrQ, jmin, jround, jmul,
    jdiv, jle, mapSet, mkEquip, c6lookC, c6memC]

theorem c6analyzer : runAnalyzer c6nodes c6edges =
    { utils := [("C", .fin 40), ("B", .fin 40), ("A", .fin 100)],
      bottleneckId := "A", maxCycleTime := 10 } := by
  rw [runAnalyzer, c6connected, c6ndmEq, c6startEq,
    show c6nodes = [mkEquip "A" 10 1, mkEquip "B" 4 1, mkEquip "C" 4 1] from rfl,
    List.foldl_cons, List.foldl_cons, List.foldl_cons, List.foldl_nil,
    show (["A"].headD "") = "A" from rfl, c6astepA, c6astepB, c6astepC]

/-! ### Shared single-token step characterisations -/

theorem tickPaths_nil (env : SimEnv) (delta : ℚ) :
    tickPaths env delta [] = [] := rfl

theorem tickPaths_cons (env : SimEnv) (delta : ℚ) (p : Path) (l : List Path) :
    tickPaths env delta (p :: l) =
      (stepPath env delta p).nextPaths ++ tickPaths env delta l := by
  simp [tickPaths]

theorem tickPaths_append (env : SimEnv) (delta : ℚ) (a b : List Path) :
    tickPaths env delta (a ++ b) =
      tickPaths env delta a ++ tickPaths env delta b := by
  simp [tickPaths]

theorem tickPaths_singleton (env : SimEnv) (delta : ℚ) (p : Path) :
    tickPaths env delta [p] = (stepPath env delta p).nextPaths := by
  simp [tickPaths]

theorem stepPath_transit_arrive (env : SimEnv) (delta : ℚ) (p : Path)
    (hin : p.inTransit = true) (harr : transitArrives env delta p = true) :
    stepPath env delta p =
      { nextPaths := [arrivalPath p]
        activeIds := [p.transitTo]
        transitMarks :=
          if p.transitTime > 0 then
            match env.edges.find?
              (fun e => e.source == p.nodeId && e.target == p.transitTo) with
            | some e => [(e.id, transitNewProgress env delta p)]
            | none => []
          else [] } := by
  simp only [stepPath, hin, if_true, harr]

theorem stepPath_transit_stay (env : SimEnv) (delta : ℚ) (p : Path)
    (hin : p.inTransit = true) (harr : transitArrives env delta p = false) :
    stepPath env delta p =
      { nextPaths := [{ p with transitProgress := transitNewProgress env delta p }]
        activeIds := []
        transitMarks :=
          if p.transitTime > 0 then
            match env.edges.find?
              (fun e => e.source == p.nodeId && e.target == p.transitTo) with
            | some e => [(e.id, transitNewProgress env delta p)]
            | none => []
          else [] } := by
  simp only [stepPath, hin, if_true, harr]
  simp

theorem stepPath_atNode_orphan (env : SimEnv) (delta : ℚ) (p : Path)
    (hin : p.inTransit = false)
    (hnd : mapGet (buildNodeDataMap env.nodes) p.nodeId = none) :
    stepPath env delta p = { nextPaths := [], activeIds := [], transitMarks := [] } := by
  simp only [stepPath, hin, hnd]
  simp

/-- The `activeNodeIds` contribution of a non-transiting token. -/
def atNodeActives (p : Path) : List String :=
  if p.isGroup = some true ∧ p.groupChildren.isSome then
    p.nodeId :: p.groupChildren.getD []
  else [p.nodeId]

theorem stepPath_atNode_complete (env : SimEnv) (delta : ℚ) (p : Path)
    (nd : NodeData) (hin : p.inTransit = false)
    (hnd : mapGet (buildNodeDataMap env.nodes) p.nodeId = some nd)
    (hdone : jge (atNodeNewProgress env delta nd p) (.fin 1) = true) :
    stepPath env delta p =
      { nextPaths := (edgeMapGetD env.edges p.nodeId).map (fanOutPath env p.nodeId)
        activeIds := atNodeActives p
        transitMarks := [] } := by
  simp only [stepPath, hin, Bool.false_eq_true, if_false, hnd, hdone, if_true,
    atNodeActives]

theorem stepPath_atNode_stay (env : SimEnv) (delta : ℚ) (p : Path)
    (nd : NodeData) (hin : p.inTransit = false)
    (hnd : mapGet (buildNodeDataMap env.nodes) p.nodeId = some nd)
    (hstay : jge (atNodeNewProgress env delta nd p) (.fin 1) = false) :
    stepPath env delta p =
      { nextPaths := [{ p with progress := atNodeNewProgress env delta nd p }]
        activeIds := atNodeActives p
        transitMarks := [] } := by
  simp only [stepPath, hin, Bool.false_eq_true, if_false, hnd, hstay,
    atNodeActives]

/-- C6 (confirmed).  In the A→B→C chain with cycle times 10, 4, 4,
capacity 1 and transit time 1 on both edges, the run completes (the
active set is empty after 20 unit ticks), and the Completion Analyzer
reports A as the bottleneck with utilization 100 while B and C are not
marked as bottleneck (their utilization is 40). -/
theorem c6_bottleneck_scenario :
    iterTick c6env 1 20 c6init = [] ∧
    (runAnalyzer c6nodes c6edges).bottleneckId = "A" ∧
    analyzerNodeView c6nodes c6edges "A" = (false, .fin 100, true) ∧
    analyzerNodeView c6nodes c6edges "B" = (false, .fin 40, false) ∧
    analyzerNodeView c6nodes c6edges "C" = (false, .fin 40, false) := by
  refine ⟨c6run, ?_, ?_, ?_, ?_⟩
  · rw [c6analyzer]
  · rw [analyzerNodeView, c6analyzer, c6connected]; decide
  · rw [analyzerNodeView, c6analyzer, c6connected]; decide
  · rw [analyzerNodeView, c6analyzer, c6connected]; decide

/-- C9 (confirmed).  An in-transit token whose `transitTime` is ≤ 0
completes its transit on the very next tick: it is replaced (in that
same tick) by an `AtNode` token at its target with progress 0, the
target is marked active, no transit mark is emitted, and nothing fails —
the unguarded division by `transitTime` feeds only the discarded
`transitProgress` value, and the `transitTime <= 0` disjunct of the
arrival test forces arrival regardless of it. -/
theorem c9_zero_transit_immediate (env : SimEnv) (delta : ℚ) (p : Path)
    (hin : p.inTransit = true) (htt : p.transitTime ≤ 0) :
    stepPath env delta p =
      { nextPaths := [arrivalPath p]
        activeIds := [p.transitTo]
        transitMarks := [] } ∧
    (arrivalPath p).nodeId = p.transitTo ∧
    (arrivalPath p).progress = .fin 0 ∧
    (arrivalPath p).inTransit = false := by
  have harr : transitArrives env delta p = true := by
    simp [transitArrives, htt]
  have hmarks : ¬ (p.transitTime > 0) := not_lt.mpr htt
  refine ⟨?_, rfl, rfl, rfl⟩
  rw [stepPath_transit_arrive env delta p hin harr]
  simp [hmarks]

def c9wEnv : SimEnv := ⟨[], [], 1⟩

def c9wTok : Path := ⟨"X", .fin 1, true, "Y", 0, .fin 0, none, none⟩

theorem c9_zero_transit_immediate_witness :
    c9wTok.inTransit = true ∧ c9wTok.transitTime ≤ 0 ∧
    stepPath c9wEnv 1 c9wTok =
      { nextPaths := [arrivalPath c9wTok]
        activeIds := ["Y"]
        transitMarks := [] } :=
  ⟨rfl, by norm_num [c9wTok],
    by rw [(c9_zero_transit_immediate c9wEnv 1 c9wTok rfl (by norm_num [c9wTok])).1]; rfl⟩

/-- C4 (confirmed).  When a non-transiting token's progress reaches 1
this tick (at a node present in the data map), its contribution to the
next active set is exactly one new in-transit token per outgoing edge of
its node, in adjacency (input edge) order, each with `transitProgress = 0`
and the edge's `transitTime || 0`; with zero outgoing edges the token is
consumed (the map over the empty adjacency list contributes nothing). -/
theorem c4_branching_law (env : SimEnv) (delta : ℚ) (p : Path) (nd : NodeData)
    (pre post : List Path)
    (hin : p.inTransit = false)
    (hnd : mapGet (buildNodeDataMap env.nodes) p.nodeId = some nd)
    (hdone : jge (atNodeNewProgress env delta nd p) (.fin 1) = true) :
    (stepPath env delta p).nextPaths =
      (edgeMapGetD env.edges p.nodeId).map (fanOutPath env p.nodeId) ∧
    edgeMapGetD env.edges p.nodeId =
      (env.edges.filter (fun e => e.source == p.nodeId)).map
        (fun e => (e.target, jsOrQ e.transitTime 0)) ∧
    (∀ t ∈ edgeMapGetD env.edges p.nodeId,
      (fanOutPath env p.nodeId t).inTransit = true ∧
      (fanOutPath env p.nodeId t).transitProgress = .fin 0 ∧
      (fanOutPath env p.nodeId t).transitTo = t.1 ∧
      (fanOutPath env p.nodeId t).transitTime = t.2 ∧
      (fanOutPath env p.nodeId t).nodeId = p.nodeId) ∧
    tickPaths env delta (pre ++ p :: post) =
      tickPaths env delta pre ++
        (edgeMapGetD env.edges p.nodeId).map (fanOutPath env p.nodeId) ++
        tickPaths env delta post := by
  refine ⟨?_, edgeMapGetD_eq env.edges p.nodeId, ?_, ?_⟩
  · rw [stepPath_atNode_complete env delta p nd hin hnd hdone]
  · intro t _
    exact ⟨rfl, rfl, rfl, rfl, rfl⟩
  · rw [tickPaths_append, tickPaths_cons,
      stepPath_atNode_complete env delta p nd hin hnd hdone]
    simp

theorem c4_branching_law_witness :
    jge (atNodeNewProgress c6env 1 ⟨some 10, some 1⟩ (c6pA (9/10))) (.fin 1) = true ∧
    (stepPath c6env 1 (c6pA (9/10))).nextPaths =
      (edgeMapGetD c6env.edges "A").map (fanOutPath c6env "A") := by
  have hdone : jge (atNodeNewProgress c6env 1 ⟨some 10, some 1⟩ (c6pA (9/10)))
      (.fin 1) = true := by
    norm_num [atNodeNewProgress, cycleDuration, adjustedCycle, jsOrQ, effDt,
      jadd, jdiv, jge, jle, c6pA, c6env]
  exact ⟨hdone,
    (c4_branching_law c6env 1 (c6pA (9/10)) ⟨some 10, some 1⟩ [] [] rfl
      (by decide) hdone).1⟩

/-- A token that is in transit and does not arrive this tick contributes
nothing to `activeNodeIds` and only an in-transit record to the next
set; a token unrelated to `n` (neither at `n`, nor heading to `n`, nor
carrying `n` among its group children) never contributes `n` either. -/
theorem c10_step_contrib (env : SimEnv) (delta : ℚ) (n : String) (p : Path)
    (hp : (p.inTransit = true ∧ transitArrives env delta p = false) ∨
      (p.nodeId ≠ n ∧ p.transitTo ≠ n ∧ n ∉ p.groupChildren.getD [])) :
    n ∉ (stepPath env delta p).activeIds ∧
    ∀ q ∈ (stepPath env delta p).nextPaths, ¬(q.nodeId = n ∧ q.inTransit = false) := by
  have stay_case : ∀ (hin : p.inTransit = true)
      (harr : transitArrives env delta p = false),
      n ∉ (stepPath env delta p).activeIds ∧
      ∀ q ∈ (stepPath env delta p).nextPaths,
        ¬(q.nodeId = n ∧ q.inTransit = false) := by
    intro hin harr
    rw [stepPath_transit_stay env delta p hin harr]
    refine ⟨by simp, ?_⟩
    intro q hq
    simp only [List.mem_singleton] at hq
    subst hq
    simp [hin]
  rcases hp with ⟨hin, harr⟩ | ⟨h1, h2, h3⟩
  · exact stay_case hin harr
  · by_cases hin : p.inTransit = true
    · by_cases harr : transitArrives env delta p = true
      · rw [stepPath_transit_arrive env delta p hin harr]
        refine ⟨by simp [Ne.symm h2], ?_⟩
        intro q hq
        simp only [List.mem_singleton] at hq
        subst hq
        simp [arrivalPath, h2]
      · exact stay_case hin (by simpa using harr)
    · have hin' : p.inTransit = false := by simpa using hin
      cases hnd : mapGet (buildNodeDataMap env.nodes) p.nodeId with
      | none =>
        rw [stepPath_atNode_orphan env delta p hin' hnd]
        simp
      | some nd =>
        have hact : n ∉ atNodeActives p := by
          unfold atNodeActives
          split
          · simp only [List.mem_cons]
            rintro (rfl | hmem)
            · exact h1 rfl
            · exact h3 hmem
          · simp [Ne.symm h1]
        by_cases hdone : jge (atNodeNewProgress env delta nd p) (.fin 1) = true
        · rw [stepPath_atNode_complete env delta p nd hin' hnd hdone]
          refine ⟨hact, ?_⟩
          intro q hq
          simp only [List.mem_map] at hq
          obtain ⟨t, _, rfl⟩ := hq
          simp [fanOutPath]
        · rw [stepPath_atNode_stay env delta p nd hin' hnd (by simpa using hdone)]
          refine ⟨hact, ?_⟩
          intro q hq
          simp only [List.mem_singleton] at hq
          subst hq
          simp [h1]

/-- C10 (confirmed).  In the per-tick presentation, a token that stays
in transit through the tick marks no node active; a node `n` whose only
associated tokens (tokens at `n`, heading to `n`, or carrying `n` as a
group child) are in-transit tokens that do not arrive this tick is
reported inactive with an undefined (`none`) progress field. -/
theorem c10_transiting_tokens_mark_no_node (env : SimEnv) (delta : ℚ)
    (paths : List Path) (n : String)
    (h : ∀ p ∈ paths,
      (p.inTransit = true ∧ transitArrives env delta p = false) ∨
      (p.nodeId ≠ n ∧ p.transitTo ≠ n ∧ n ∉ p.groupChildren.getD [])) :
    nodeActiveFlag env delta paths n = false ∧
    nodeProgressField env delta paths n = none := by
  have hmem : n ∉ tickActiveIds env delta paths := by
    rw [tickActiveIds]
    intro hn
    rw [List.mem_flatMap] at hn
    obtain ⟨p, hp, hnin⟩ := hn
    exact (c10_step_contrib env delta n p (h p hp)).1 hnin
  constructor
  · rw [nodeActiveFlag]
    simpa using hmem
  · rw [nodeProgressField]
    have : (tickPaths env delta paths).find?
        (fun p => p.nodeId == n && !p.inTransit) = none := by
      rw [List.find?_eq_none]
      intro q hq
      rw [tickPaths, List.mem_flatMap] at hq
      obtain ⟨p, hp, hqin⟩ := hq
      have := (c10_step_contrib env delta n p (h p hp)).2 q hqin
      simpa using this
    rw [this]
    rfl

def c10wTok : Path := ⟨"A", .fin 1, true, "B", 5, .fin 0, none, none⟩

theorem c10_transiting_tokens_mark_no_node_witness :
    (c10wTok.inTransit = true ∧ transitArrives c6env 1 c10wTok = false) ∧
    nodeActiveFlag c6env 1 [c10wTok] "A" = false ∧
    nodeProgressField c6env 1 [c10wTok] "A" = none := by
  have harr : transitArrives c6env 1 c10wTok = false := by
    norm_num [transitArrives, transitNewProgress, effDt, jadd, jdiv, jge, jle,
      c10wTok, c6env]
  exact ⟨⟨rfl, harr⟩,
    c10_transiting_tokens_mark_no_node c6env 1 [c10wTok] "A"
      (by intro p hp; simp only [List.mem_singleton] at hp; subst hp
          exact Or.inl ⟨rfl, harr⟩)⟩

/-- The filter predicate of `startNodeIds` holds exactly for pure
sources: nodes with at least one outgoing edge that are never the
target of any edge. -/
theorem startPred_iff (edges : List FEdge) (n : FNode) :
    (!isEdgeTarget edges n.id && mapHas (buildEdgeMap edges) n.id &&
      decide (((mapGet (buildEdgeMap edges) n.id).getD []).length > 0)) = true ↔
    ((∃ e ∈ edges, e.source = n.id) ∧ ¬ ∃ e ∈ edges, e.target = n.id) := by
  have hlen : ((mapGet (buildEdgeMap edges) n.id).getD []) =
      (edges.filter (fun e => e.source == n.id)).map
        (fun e => (e.target, jsOrQ e.transitTime 0)) := edgeMapGetD_eq edges n.id
  rw [Bool.and_eq_true, Bool.and_eq_true]
  constructor
  · rintro ⟨⟨hnt, hhas⟩, -⟩
    constructor
    · rw [mapHas_buildEdgeMap, List.any_eq_true] at hhas
      obtain ⟨e, he, hsrc⟩ := hhas
      exact ⟨e, he, by simpa using hsrc⟩
    · rintro ⟨e, he, htgt⟩
      rw [Bool.not_eq_true'] at hnt
      rw [isEdgeTarget] at hnt
      have : edges.any (fun e => e.target == n.id) = true :=
        List.any_eq_true.mpr ⟨e, he, by simpa using htgt⟩
      rw [this] at hnt
      exact absurd hnt (by simp)
  · rintro ⟨⟨e, he, hsrc⟩, hnt⟩
    refine ⟨⟨?_, ?_⟩, ?_⟩
    · rw [Bool.not_eq_true', isEdgeTarget]
      rw [List.any_eq_false]
      intro x hx
      intro hb
      exact hnt ⟨x, hx, by simpa using hb⟩
    · rw [mapHas_buildEdgeMap]
      exact List.any_eq_true.mpr ⟨e, he, by simpa using hsrc⟩
    · rw [decide_eq_true_eq, hlen, List.length_map]
      have : e ∈ edges.filter (fun e => e.source == n.id) :=
        List.mem_filter.mpr ⟨he, by simpa using hsrc⟩
      exact List.length_pos.mpr (List.ne_nil_of_mem this)

/-- C5 (confirmed).  Starting a run fails (returns the `NoEntryPoint`
outcome: error surfaced, no tokens created, no tick ever scheduled)
exactly when no node is a pure source — i.e. no node both has an
outgoing edge and is never an edge target; and when a pure source
exists, the run starts with exactly one fresh `AtNode` token per start
node, in start-node order. -/
theorem c5_no_entry_point (nodes : List FNode) (edges : List FEdge) :
    (startSimulation nodes edges = none ↔
      ¬ ∃ n ∈ nodes, (∃ e ∈ edges, e.source = n.id) ∧
        ¬ ∃ e ∈ edges, e.target = n.id) ∧
    (∀ init, startSimulation nodes edges = some init →
      init = (startNodeIds nodes edges).map (mkStartPath nodes) ∧
      init ≠ [] ∧
      ∀ p ∈ init, p.inTransit = false ∧ p.progress = .fin 0) := by
  have hempty : startNodeIds nodes edges = [] ↔
      ¬ ∃ n ∈ nodes, (∃ e ∈ edges, e.source = n.id) ∧
        ¬ ∃ e ∈ edges, e.target = n.id := by
    rw [startNodeIds, List.map_eq_nil_iff, List.filter_eq_nil_iff]
    constructor
    · rintro h ⟨n, hn, hsrc, htgt⟩
      exact h n hn ((startPred_iff edges n).mpr ⟨hsrc, htgt⟩)
    · intro h n hn hpred
      exact h ⟨n, hn, (startPred_iff edges n).mp hpred⟩
  constructor
  · rw [startSimulation]
    split
    · next h => simp only [true_iff]; exact hempty.mp h
    · next h =>
      simp only [reduceCtorEq, false_iff]
      intro hc
      exact h (hempty.mpr hc)
  · intro init hinit
    rw [startSimulation] at hinit
    split at hinit
    · exact absurd hinit (by simp)
    · next h =>
      obtain rfl : (startNodeIds nodes edges).map (mkStartPath nodes) = init :=
        Option.some_injective _ hinit
      refine ⟨rfl, by simpa using h, ?_⟩
      intro p hp
      rw [List.mem_map] at hp
      obtain ⟨id, _, rfl⟩ := hp
      exact ⟨rfl, rfl⟩

def c5cycNodes : List FNode := [mkEquip "X" 1 1, mkEquip "Y" 1 1]

def c5cycEdges : List FEdge := [mkEdge "eXY" "X" "Y" 1, mkEdge "eYX" "Y" "X" 1]

theorem c5_no_entry_point_witness :
    startSimulation c5cycNodes c5cycEdges = none ∧
    (¬ ∃ n ∈ c5cycNodes, (∃ e ∈ c5cycEdges, e.source = n.id) ∧
      ¬ ∃ e ∈ c5cycEdges, e.target = n.id) ∧
    startSimulation c6nodes c6edges = some [c6pA 0] ∧
    [c6pA 0] = (startNodeIds c6nodes c6edges).map (mkStartPath c6nodes) := by
  have hcyc : startSimulation c5cycNodes c5cycEdges = none := by decide
  have h6 : startSimulation c6nodes c6edges = some [c6pA 0] := by decide
  exact ⟨hcyc, (c5_no_entry_point c5cycNodes c5cycEdges).1.mp hcyc,
    h6, ((c5_no_entry_point c6nodes c6edges).2 [c6pA 0] h6).1⟩

/-! ### C3: primary-unit position.

The engine reports `nextActivePaths[0]` — the first token of the new
active set — and clears the position whenever that *first* token is in
transit, even if a later token is a non-transiting one.  The claim
(first **non-transiting** token; cleared exactly when none exists) is
refuted on a fan-out graph where the slow transit token sits at the head
of the active set while an arrived token sits behind it. -/

def c3nodes : List FNode := [mkEquip "S" 1 1, mkEquip "A" 10 1, mkEquip "B" 4 1]

def c3edges : List FEdge := [mkEdge "eSA" "S" "A" 100, mkEdge "eSB" "S" "B" 2]

def c3env : SimEnv := ⟨c3nodes, c3edges, 1⟩

def c3init : List Path := (startSimulation c3nodes c3edges).getD []

def c3pS : Path := ⟨"S", .fin 0, false, "", 0, .fin 0, some false, none⟩

def c3tSA (q : ℚ) : Path := ⟨"S", .fin 1, true, "A", 100, .fin q, some false, none⟩

def c3tSB (q : ℚ) : Path := ⟨"S", .fin 1, true, "B", 2, .fin q, some false, none⟩

def c3pB : Path := ⟨"B", .fin 0, false, "", 0, .fin 0, none, none⟩

theorem c3initEq : c3init = [c3pS] := by decide

theorem c3ndmS : mapGet (buildNodeDataMap c3nodes) "S" =
    some ⟨some 1, some 1⟩ := by decide

theorem c3adjS : edgeMapGetD c3edges "S" = [("A", 100), ("B", 2)] := by decide

theorem c3gcmA : mapGet (buildGroupChildrenMap c3nodes) "A" = none := by decide

theorem c3gcmB : mapGet (buildGroupChildrenMap c3nodes) "B" = none := by decide

theorem c3igA : isGroupNode c3nodes "A" = false := by decide

theorem c3igB : isGroupNode c3nodes "B" = false := by decide

theorem c3t1 : tickPaths c3env 1 [c3pS] = [c3tSA 0, c3tSB 0] := by
  norm_num [tickPaths, stepPath, List.flatMap, atNodeNewProgress,
    cycleDuration, adjustedCycle, effDt, jadd, jdiv, jge, jle, jsOrQ,
    fanOutPath, c3pS, c3tSA, c3tSB, c3ndmS, c3adjS, c3gcmA, c3gcmB,
    c3igA, c3igB, c3env]

theorem c3t2 : tickPaths c3env 1 [c3tSA 0, c3tSB 0] =
    [c3tSA (1/100), c3tSB (1/2)] := by
  norm_num [tickPaths, stepPath, List.flatMap, transitArrives,
    transitNewProgress, arrivalPath, effDt, jadd, jdiv, jge, jle,
    c3tSA, c3tSB, c3env, c3edges, mkEdge, List.find?]

theorem c3t3 : tickPaths c3env 1 [c3tSA (1/100), c3tSB (1/2)] =
    [c3tSA (2/100), c3pB] := by
  norm_num [tickPaths, stepPath, List.flatMap, transitArrives,
    transitNewProgress, arrivalPath, effDt, jadd, jdiv, jge, jle,
    c3tSA, c3tSB, c3pB, c3env, c3edges, mkEdge, List.find?]

/-- C3 counterexample: after two ticks of the fan-out run, the next
tick produces an active set whose head is the still-transiting S→A
token while the S→B token has arrived at B; the engine reports the
cleared (`none`) position although a non-transiting token exists. -/
theorem c3_counterexample :
    tickUnitPosition c3env 1 (iterTick c3env 1 2 c3init) = none ∧
    (tickPaths c3env 1 (iterTick c3env 1 2 c3init)).any
      (fun p => !p.inTransit) = true := by
  have hstate : iterTick c3env 1 2 c3init = [c3tSA (1/100), c3tSB (1/2)] := by
    rw [c3initEq]
    show tickPaths c3env 1 (tickPaths c3env 1 [c3pS]) = _
    rw [c3t1, c3t2]
  constructor
  · rw [tickUnitPosition, hstate, c3t3]
    rfl
  · rw [hstate, c3t3]
    decide

/-- C3 (amended, proved).  The reported primary-unit position is
determined by the *first* token of the new active set alone: it is that
token's node and progress when the head token is not in transit, and it
is the cleared (`none`) state exactly when the new active set is empty
or its head token is in transit — regardless of non-transiting tokens
further down the list. -/
theorem c3_amended_primary_position (env : SimEnv) (delta : ℚ)
    (paths : List Path) :
    (tickUnitPosition env delta paths =
      match (tickPaths env delta paths).head? with
      | some p => if p.inTransit then none else some (p.nodeId, p.progress)
      | none => none) ∧
    (tickUnitPosition env delta paths = none ↔
      tickPaths env delta paths = [] ∨
      ∃ p l, tickPaths env delta paths = p :: l ∧ p.inTransit = true) := by
  cases h : tickPaths env delta paths with
  | nil =>
    constructor
    · simp only [tickUnitPosition, h]
      rfl
    · simp only [tickUnitPosition, h]
      simp
  | cons p l =>
    constructor
    · simp only [tickUnitPosition, h, List.head?_cons]
    · simp only [tickUnitPosition, h]
      cases hin : p.inTransit with
      | true => simp [hin]
      | false => simp [hin]

/-! ### C8: monotonicity of progress within a state -/

theorem foldl_minCycleStep_pos (ndm : List (String × NodeData)) :
    ∀ (children : List String) (acc : JNum),
    (∀ c ∈ children, ∀ cd, mapGet ndm c = some cd → 0 < adjustedCycle cd) →
    (acc = .inf ∨ ∃ d, acc = .fin d ∧ 0 < d) →
    (children.foldl (minCycleStep ndm) acc = .inf ∨
      ∃ d, children.foldl (minCycleStep ndm) acc = .fin d ∧ 0 < d) := by
  intro children
  induction children with
  | nil => intro acc _ hacc; simpa using hacc
  | cons c cs ih =>
    intro acc h hacc
    rw [List.foldl_cons]
    apply ih _ (fun x hx => h x (List.mem_cons_of_mem _ hx))
    rw [minCycleStep]
    cases hnd : mapGet ndm c with
    | none => exact hacc
    | some cd =>
      have ha : 0 < adjustedCycle cd := h c (List.mem_cons_self _ _) cd hnd
      rcases hacc with rfl | ⟨d, rfl, hd⟩
      · right
        exact ⟨adjustedCycle cd, by simp [jmin, jle], ha⟩
      · right
        by_cases hle : d ≤ adjustedCycle cd
        · exact ⟨d, by simp [jmin, jle, hle], hd⟩
        · exact ⟨adjustedCycle cd, by simp [jmin, jle, hle], ha⟩

theorem groupMinCycle_pos (ndm : List (String × NodeData))
    (children : List String)
    (h : ∀ c ∈ children, ∀ cd, mapGet ndm c = some cd → 0 < adjustedCycle cd) :
    groupMinCycle ndm children = .inf ∨
      ∃ d, groupMinCycle ndm children = .fin d ∧ 0 < d :=
  foldl_minCycleStep_pos ndm children .inf h (Or.inl rfl)

/-- When the node's own adjusted cycle time and all its listed group
children's adjusted cycle times are positive, this tick's
`cycleDuration` is a positive finite rational. -/
theorem cycleDuration_pos (env : SimEnv) (nd : NodeData) (p : Path)
    (hnd_pos : 0 < adjustedCycle nd)
    (hchild : ∀ c ∈ p.groupChildren.getD [], ∀ cd,
      mapGet (buildNodeDataMap env.nodes) c = some cd → 0 < adjustedCycle cd) :
    ∃ d, cycleDuration env nd p = .fin d ∧ 0 < d := by
  rw [cycleDuration]
  split
  · rcases groupMinCycle_pos (buildNodeDataMap env.nodes)
        (p.groupChildren.getD []) hchild with hinf | ⟨d, hd, hpos⟩
    · rw [hinf]
      exact ⟨1, by simp, one_pos⟩
    · rw [hd]
      refine ⟨d, ?_, hpos⟩
      rw [if_neg (by simp)]
  · exact ⟨adjustedCycle nd, rfl, hnd_pos⟩

def c8nodes : List FNode := [⟨"Z", "equipment", none, ⟨some 0, some 1⟩⟩]

def c8env : SimEnv := ⟨c8nodes, [], 1⟩

def c8tok : Path := ⟨"Z", .fin (1/2), false, "", 0, .fin 0, some false, none⟩

theorem c8ndmZ : mapGet (buildNodeDataMap c8nodes) "Z" =
    some ⟨some 0, some 1⟩ := by decide

/-- C8 counterexample.  Under the claim's own hypotheses — tick delta 0
(non-negative), cycle time 0 (non-negative), capacity 1, speed 1
(positive) — the `0/0` in the progress update produces NaN: the token
remains `AtNode` (NaN ≥ 1 is false in JavaScript) with progress NaN,
and NaN ≥ oldProgress is also false, so progress is **not** ≥ its
previous value. -/
theorem c8_counterexample :
    ((0:ℚ) ≤ 0 ∧ (0:ℚ) < c8env.simulationSpeed ∧
      (∀ n ∈ c8nodes, 0 ≤ jsOrQ n.data.cycleTime 0 ∧
        1 ≤ jsOrQ n.data.maxCapacity 1)) ∧
    (stepPath c8env 0 c8tok).nextPaths = [{ c8tok with progress := JNum.nan }] ∧
    ({ c8tok with progress := JNum.nan }).inTransit = false ∧
    ({ c8tok with progress := JNum.nan }).nodeId = c8tok.nodeId ∧
    jge JNum.nan c8tok.progress = false := by
  refine ⟨⟨le_refl 0, by norm_num [c8env], ?_⟩, ?_, rfl, rfl, rfl⟩
  · intro n hn
    simp only [c8nodes, List.mem_singleton] at hn
    subst hn
    norm_num [jsOrQ]
  · norm_num [stepPath, c8tok, c8ndmZ, atNodeNewProgress, cycleDuration,
      adjustedCycle, jsOrQ, effDt, jadd, jdiv, jge, jle, c8env]

/-- C8 (amended, proved).  Monotonicity holds once the cycle times in
play are **positive** (not merely non-negative): a non-transiting token
that stays at its node has new progress ≥ old progress given
non-negative effective dt, a positive adjusted cycle time and positive
child cycle times (and likewise an in-transit token that does not
arrive), and both state transitions (fan-out and arrival) reset the new
token's progress field to 0.  With a zero cycle time and a zero delta
the JavaScript `0/0` produces NaN and the comparison fails, which is
what the counterexample exhibits. -/
theorem c8_amended_monotonicity :
    (∀ (env : SimEnv) (delta : ℚ) (p : Path) (nd : NodeData) (q : ℚ),
      p.inTransit = false →
      p.progress = .fin q →
      0 ≤ delta * env.simulationSpeed →
      0 < adjustedCycle nd →
      (∀ c ∈ p.groupChildren.getD [], ∀ cd,
        mapGet (buildNodeDataMap env.nodes) c = some cd → 0 < adjustedCycle cd) →
      jge (atNodeNewProgress env delta nd p) p.progress = true) ∧
    (∀ (env : SimEnv) (delta : ℚ) (p : Path) (q : ℚ),
      p.inTransit = true →
      p.transitProgress = .fin q →
      0 ≤ delta * env.simulationSpeed →
      transitArrives env delta p = false →
      jge (transitNewProgress env delta p) p.transitProgress = true) ∧
    (∀ (env : SimEnv) (fromId : String) (t : String × ℚ),
      (fanOutPath env fromId t).transitProgress = .fin 0) ∧
    (∀ p : Path, (arrivalPath p).progress = .fin 0) := by
  refine ⟨?_, ?_, fun _ _ _ => rfl, fun _ => rfl⟩
  · intro env delta p nd q _ hq hdt hpos hchild
    obtain ⟨d, hd, hdpos⟩ := cycleDuration_pos env nd p hpos hchild
    rw [atNodeNewProgress, hd, hq]
    have hne : d ≠ 0 := ne_of_gt hdpos
    simp only [jadd, jdiv, hne, if_false, effDt, jge, jle]
    rw [decide_eq_true_eq]
    have : 0 ≤ delta * env.simulationSpeed / d := div_nonneg hdt (le_of_lt hdpos)
    linarith
  · intro env delta p q _ hq hdt harr
    have htt : ¬ (p.transitTime ≤ 0) := by
      rw [transitArrives, Bool.or_eq_false_iff] at harr
      simpa using harr.2
    have httpos : 0 < p.transitTime := lt_of_not_le htt
    have hne : p.transitTime ≠ 0 := ne_of_gt httpos
    rw [transitNewProgress, hq, effDt]
    rw [jdiv]
    rw [if_neg hne]
    simp only [jadd, jge, jle]
    rw [decide_eq_true_eq]
    have : 0 ≤ delta * env.simulationSpeed / p.transitTime :=
      div_nonneg hdt (le_of_lt httpos)
    linarith

theorem c8_amended_monotonicity_witness :
    jge (atNodeNewProgress c6env 1 ⟨some 10, some 1⟩ (c6pA (1/2)))
      (c6pA (1/2)).progress = true ∧
    jge (transitNewProgress c6env 1 c10wTok) c10wTok.transitProgress = true := by
  have harr : transitArrives c6env 1 c10wTok = false := by
    norm_num [transitArrives, transitNewProgress, effDt, jadd, jdiv, jge, jle,
      c10wTok, c6env]
  exact ⟨c8_amended_monotonicity.1 c6env 1 (c6pA (1/2)) ⟨some 10, some 1⟩ (1/2)
      rfl rfl (by norm_num [c6env])
      (by norm_num [adjustedCycle, jsOrQ]) (by simp [c6pA]),
    c8_amended_monotonicity.2.1 c6env 1 c10wTok 0 rfl rfl
      (by norm_num [c6env]) harr⟩

/-! ### C1: group semantics for tokens that reach a group via transit.

The fan-out constructor stores the *target's* `isGroup` and
`groupChildren` on the transit token (evidencing the intent that a
group reached by transit be processed as a group), but the arrival
literal drops both fields, so the arrived token takes the plain
equipment branch: the group's own `cycleTime` is absent, `cycleTime||0`
is 0, the progress increment divides by zero (`Infinity`), the token
completes instantly, and the children are never marked active. -/

def c1nodes : List FNode :=
  [mkEquip "S" 1 1,
   ⟨"G", "group", none, ⟨none, none⟩⟩,
   ⟨"Ch", "equipment", some "G", ⟨some 2, some 1⟩⟩]

def c1edges : List FEdge := [mkEdge "eSG" "S" "G" 1]

def c1env : SimEnv := ⟨c1nodes, c1edges, 1⟩

def c1init : List Path := (startSimulation c1nodes c1edges).getD []

def c1pS : Path := ⟨"S", .fin 0, false, "", 0, .fin 0, some false, none⟩

def c1tSG : Path := ⟨"S", .fin 1, true, "G", 1, .fin 0, some true, some ["Ch"]⟩

def c1pG : Path := ⟨"G", .fin 0, false, "", 0, .fin 0, none, none⟩

def c1pGstart : Path := ⟨"G", .fin 0, false, "", 0, .fin 0, some true, some ["Ch"]⟩

theorem c1initEq : c1init = [c1pS] := by decide

theorem c1ndmS : mapGet (buildNodeDataMap c1nodes) "S" =
    some ⟨some 1, some 1⟩ := by decide

theorem c1ndmG : mapGet (buildNodeDataMap c1nodes) "G" =
    some ⟨none, none⟩ := by decide

theorem c1ndmCh : mapGet (buildNodeDataMap c1nodes) "Ch" =
    some ⟨some 2, some 1⟩ := by decide

theorem c1adjS : edgeMapGetD c1edges "S" = [("G", 1)] := by decide

theorem c1adjG : edgeMapGetD c1edges "G" = [] := by decide

theorem c1gcmG : mapGet (buildGroupChildrenMap c1nodes) "G" =
    some ["Ch"] := by decide

theorem c1igG : isGroupNode c1nodes "G" = true := by decide

theorem jfin_ne_inf (q : ℚ) : (JNum.fin q = JNum.inf) = False := by simp

theorem c1t1 : tickPaths c1env 1 [c1pS] = [c1tSG] := by
  norm_num [tickPaths, stepPath, List.flatMap, atNodeNewProgress,
    cycleDuration, adjustedCycle, effDt, jadd, jdiv, jge, jle, jsOrQ,
    fanOutPath, c1pS, c1tSG, c1ndmS, c1adjS, c1gcmG, c1igG, c1env]

theorem c1t2 : tickPaths c1env 1 [c1tSG] = [c1pG] := by
  norm_num [tickPaths, stepPath, List.flatMap, transitArrives,
    transitNewProgress, arrivalPath, effDt, jadd, jdiv, jge, jle,
    c1tSG, c1pG, c1env, c1edges, mkEdge, List.find?]

/-- C1 (code bug).  After S completes and its unit transits to the
group G (two ticks), the arrived token has lost `isGroup` and
`groupChildren` even though the transit token carried them for G; the
next tick therefore processes G as plain equipment: the child Ch is
**not** marked active, the progress increment is `Infinity` (division
by the absent cycle time), and the token is consumed at once — whereas
the same tick applied to a token still carrying G's group fields (as a
start-node token would) advances progress by `dt / 2` (the child's
minimum effective cycle time) and marks both G and Ch active, which is
the behaviour the claim describes. -/
theorem c1_group_via_transit_code_bug :
    iterTick c1env 1 2 c1init = [c1pG] ∧
    c1pG.isGroup = none ∧ c1pG.groupChildren = none ∧
    (fanOutPath c1env "S" ("G", 1)).isGroup = some true ∧
    (fanOutPath c1env "S" ("G", 1)).groupChildren = some ["Ch"] ∧
    (arrivalPath (fanOutPath c1env "S" ("G", 1))).isGroup = none ∧
    (arrivalPath (fanOutPath c1env "S" ("G", 1))).groupChildren = none ∧
    (stepPath c1env 1 c1pG).activeIds = ["G"] ∧
    (stepPath c1env 1 c1pG).nextPaths = [] ∧
    atNodeNewProgress c1env 1 ⟨none, none⟩ c1pG = JNum.inf ∧
    (stepPath c1env 1 c1pGstart).activeIds = ["G", "Ch"] ∧
    (stepPath c1env 1 c1pGstart).nextPaths =
      [{ c1pGstart with progress := .fin (1/2) }] := by
  refine ⟨?_, rfl, rfl, ?_, ?_, rfl, rfl, ?_, ?_, ?_, ?_, ?_⟩
  · rw [c1initEq]
    show tickPaths c1env 1 (tickPaths c1env 1 [c1pS]) = _
    rw [c1t1, c1t2]
  · rw [fanOutPath]
    simp only [c1env, c1igG]
  · rw [fanOutPath]
    simp only [c1env, c1gcmG]
  · norm_num [stepPath, atNodeNewProgress, cycleDuration, adjustedCycle,
      effDt, jadd, jdiv, jge, jle, jsOrQ, c1pG, c1ndmG, c1adjG, c1env]
  · norm_num [stepPath, atNodeNewProgress, cycleDuration, adjustedCycle,
      effDt, jadd, jdiv, jge, jle, jsOrQ, c1pG, c1ndmG, c1adjG, c1env]
  · norm_num [atNodeNewProgress, cycleDuration, adjustedCycle,
      effDt, jadd, jdiv, jsOrQ, c1pG, c1env]
  · norm_num [stepPath, atNodeNewProgress, cycleDuration, adjustedCycle,
      groupMinCycle, minCycleStep, jmin, effDt, jadd, jdiv, jge, jle, jsOrQ,
      c1pGstart, c1ndmG, c1ndmCh, c1env, List.foldl, jfin_ne_inf]
  · norm_num [stepPath, atNodeNewProgress, cycleDuration, adjustedCycle,
      groupMinCycle, minCycleStep, jmin, effDt, jadd, jdiv, jge, jle, jsOrQ,
      c1pGstart, c1ndmG, c1ndmCh, c1env, List.foldl, jfin_ne_inf]

/-! ### C2: closure properties of the reachable set.

The depth-first walk returns immediately for a node that is already in
the set — and nodes added as *group children* are added without a
recursive visit, so their outgoing edges are never walked: edge-closure
fails.  Closure under group-parent→child expansion does hold (for
depth-1 group trees, as the data model prescribes). -/

def c2nodes : List FNode :=
  [mkEquip "S" 1 1,
   ⟨"G", "group", none, ⟨none, none⟩⟩,
   ⟨"C", "equipment", some "G", ⟨some 1, some 1⟩⟩,
   mkEquip "D" 1 1]

def c2edges : List FEdge := [mkEdge "eSG" "S" "G" 1, mkEdge "eCD" "C" "D" 1]

set_option maxRecDepth 10000 in
/-- C2 counterexample: `C` is in the computed reachable set (as a child
of the reachable group `G`) and has the outgoing edge `C→D`, yet `D` is
not in the reachable set — the set is not closed under edge traversal. -/
theorem c2_counterexample :
    (connectedNodes c2nodes c2edges).contains "C" = true ∧
    edgeMapGetD c2edges "C" = [("D", 1)] ∧
    (connectedNodes c2nodes c2edges).contains "D" = false := by
  refine ⟨?_, ?_, ?_⟩ <;> decide

theorem subset_setAdd (s : List String) (x : String) : s ⊆ setAdd s x := by
  unfold setAdd
  split
  · exact fun _ h => h
  · exact fun a h => List.mem_append_left _ h

theorem mem_setAdd_self (s : List String) (x : String) : x ∈ setAdd s x := by
  unfold setAdd
  split
  · next h => simpa using h
  · exact List.mem_append_right _ (List.mem_singleton.mpr rfl)

theorem mem_setAdd_elim {s : List String} {x a : String}
    (h : a ∈ setAdd s x) : a ∈ s ∨ a = x := by
  unfold setAdd at h
  split at h
  · exact Or.inl h
  · rcases List.mem_append.mp h with h' | h'
    · exact Or.inl h'
    · exact Or.inr (List.mem_singleton.mp h')

theorem subset_foldl {T : Type} (g : List String → T → List String)
    (hg : ∀ v t, v ⊆ g v t) :
    ∀ (l : List T) (v : List String), v ⊆ l.foldl g v := by
  intro l
  induction l with
  | nil => intro v; exact fun _ h => h
  | cons t ts ih =>
    intro v
    rw [List.foldl_cons]
    exact fun a h => ih (g v t) (hg v t h)

theorem mem_foldl_setAdd_of_mem (l : List String) (v : List String) :
    ∀ c ∈ l, c ∈ l.foldl setAdd v := by
  induction l generalizing v with
  | nil => intro c hc; simp at hc
  | cons x xs ih =>
    intro c hc
    rw [List.foldl_cons]
    rcases List.mem_cons.mp hc with rfl | hc'
    · exact subset_foldl setAdd subset_setAdd xs (setAdd v c)
        (mem_setAdd_self v c)
    · exact ih (setAdd v x) c hc'

theorem mem_foldl_setAdd_elim {l : List String} {v : List String} {a : String}
    (h : a ∈ l.foldl setAdd v) : a ∈ v ∨ a ∈ l := by
  induction l generalizing v with
  | nil => exact Or.inl h
  | cons x xs ih =>
    rw [List.foldl_cons] at h
    rcases ih h with h' | h'
    · rcases mem_setAdd_elim h' with h'' | h''
      · exact Or.inl h''
      · exact Or.inr (by simp [h''])
    · exact Or.inr (List.mem_cons_of_mem _ h')

theorem foldl_preserve {T : Type} (P : List String → Prop)
    (g : List String → T → List String) (hg : ∀ v t, P v → P (g v t)) :
    ∀ (l : List T) (v : List String), P v → P (l.foldl g v) := by
  intro l
  induction l with
  | nil => intro v h; exact h
  | cons t ts ih =>
    intro v h
    rw [List.foldl_cons]
    exact ih (g v t) (hg v t h)

theorem findConnectedNodes_subset (edges : List FEdge)
    (gcm : List (String × List String)) :
    ∀ (fuel : Nat) (id : String) (visited : List String),
      visited ⊆ findConnectedNodes edges gcm fuel id visited := by
  intro fuel
  induction fuel with
  | zero => intro id visited; exact fun _ h => h
  | succ fuel ih =>
    intro id visited
    rw [findConnectedNodes]
    split
    · exact fun _ h => h
    · intro a ha
      cases hg : mapGet gcm id with
      | none =>
        simp only [hg]
        exact subset_foldl _ (fun v (t : String × ℚ) => ih t.1 v) _ _
          (subset_setAdd visited id ha)
      | some children =>
        simp only [hg]
        exact subset_foldl _ (fun v (t : String × ℚ) => ih t.1 v) _ _
          (subset_foldl setAdd subset_setAdd children _
            (subset_setAdd visited id ha))

/-- The group-closure invariant: every group key present in the set has
all its children present. -/
def GroupClosed (gcm : List (String × List String)) (visited : List String) :
    Prop :=
  ∀ g ∈ visited, ∀ cs, mapGet gcm g = some cs → ∀ c ∈ cs, c ∈ visited

theorem findConnectedNodes_groupClosed (edges : List FEdge)
    (gcm : List (String × List String))
    (hflat : ∀ g cs, mapGet gcm g = some cs → ∀ c ∈ cs, mapGet gcm c = none) :
    ∀ (fuel : Nat) (id : String) (visited : List String),
      GroupClosed gcm visited →
      GroupClosed gcm (findConnectedNodes edges gcm fuel id visited) := by
  intro fuel
  induction fuel with
  | zero => intro id visited h; exact h
  | succ fuel ih =>
    intro id visited hGC
    rw [findConnectedNodes]
    split
    · exact hGC
    · apply foldl_preserve (GroupClosed gcm)
        (fun v (t : String × ℚ) => findConnectedNodes edges gcm fuel t.1 v)
        (fun v (t : String × ℚ) => ih t.1 v)
      -- the set after adding `id` and (when present) all its children
      cases hg : mapGet gcm id with
      | none =>
        simp only [hg]
        intro g hgmem cs hgc c hc
        rcases mem_setAdd_elim hgmem with h' | rfl
        · exact subset_setAdd visited id (hGC g h' cs hgc c hc)
        · rw [hg] at hgc
          exact absurd hgc (by simp)
      | some children =>
        simp only [hg]
        intro g hgmem cs hgc c hc
        rcases mem_foldl_setAdd_elim hgmem with h' | h'
        · rcases mem_setAdd_elim h' with h'' | rfl
          · exact subset_foldl setAdd subset_setAdd children _
              (subset_setAdd visited id (hGC g h'' cs hgc c hc))
          · rw [hg] at hgc
            obtain rfl : children = cs := Option.some_injective _ hgc
            exact mem_foldl_setAdd_of_mem children (setAdd visited g) c hc
        · have : mapGet gcm g = none := hflat id children hg g h'
          rw [this] at hgc
          exact absurd hgc (by simp)

/-- C2 (amended, proved).  With depth-1 group membership (no group is
itself a child, as the data model prescribes), the computed reachable
set is closed under group-parent→child expansion: every child of a
reachable group key is reachable.  Closure under edge traversal does
**not** hold — the walk returns at once for already-present nodes, so a
group child added by the expansion never has its own outgoing edges
walked (the counterexample exhibits a reachable child whose edge target
is unreachable). -/
theorem c2_amended_group_closure (nodes : List FNode) (edges : List FEdge)
    (hflat : ∀ g cs, mapGet (buildGroupChildrenMap nodes) g = some cs →
      ∀ c ∈ cs, mapGet (buildGroupChildrenMap nodes) c = none) :
    ∀ g ∈ connectedNodes nodes edges,
      ∀ cs, mapGet (buildGroupChildrenMap nodes) g = some cs →
      ∀ c ∈ cs, c ∈ connectedNodes nodes edges := by
  have h : GroupClosed (buildGroupChildrenMap nodes)
      (connectedNodes nodes edges) := by
    rw [connectedNodes]
    apply foldl_preserve (GroupClosed (buildGroupChildrenMap nodes)) _
      (fun v s => findConnectedNodes_groupClosed edges _ hflat _ s v)
    intro g hg
    simp at hg
  exact h

theorem c2gcmEq : buildGroupChildrenMap c2nodes = [("G", ["C"])] := by decide

theorem c2_amended_group_closure_witness :
    "G" ∈ connectedNodes c2nodes c2edges ∧
    mapGet (buildGroupChildrenMap c2nodes) "G" = some ["C"] ∧
    "C" ∈ connectedNodes c2nodes c2edges := by
  have hflat : ∀ g cs, mapGet (buildGroupChildrenMap c2nodes) g = some cs →
      ∀ c ∈ cs, mapGet (buildGroupChildrenMap c2nodes) c = none := by
    intro g cs hg c hc
    rw [c2gcmEq] at hg
    by_cases hgG : g = "G"
    · subst hgG
      have : cs = ["C"] := by
        have := hg
        rw [show mapGet [("G", ["C"])] "G" = some ["C"] from by decide] at this
        exact (Option.some_injective _ this).symm
      subst this
      rw [List.mem_singleton] at hc
      subst hc
      rw [c2gcmEq]
      decide
    · rw [show mapGet [("G", ["C"])] g = none from ?_] at hg
      · exact absurd hg (by simp)
      · simp only [mapGet, List.find?]
        have : ("G" == g) = false := by
          simpa using fun h => hgG h.symm
        rw [this]
        rfl
  refine ⟨by decide, by decide, ?_⟩
  exact c2_amended_group_closure c2nodes c2edges hflat "G" (by decide)
    ["C"] (by decide) "C" (by decide)

/-! ### C7: termination.

Infrastructure: iterated ticks distribute over list concatenation, an
emptied token list stays empty, and a list terminates when each of its
tokens terminates on its own. -/

theorem iterTick_nil (env : SimEnv) (delta : ℚ) :
    ∀ k, iterTick env delta k [] = [] := by
  intro k
  induction k with
  | zero => rfl
  | succ k ih => rw [iterTick, tickPaths_nil]; exact ih

theorem iterTick_append (env : SimEnv) (delta : ℚ) :
    ∀ (k : Nat) (a b : List Path),
      iterTick env delta k (a ++ b) =
        iterTick env delta k a ++ iterTick env delta k b := by
  intro k
  induction k with
  | zero => intro a b; rfl
  | succ k ih =>
    intro a b
    rw [iterTick, tickPaths_append, ih, iterTick, iterTick]

theorem iterTick_empty_of_le (env : SimEnv) (delta : ℚ) (k m : Nat)
    (l : List Path) (h : iterTick env delta k l = []) :
    iterTick env delta (m + k) l = [] := by
  rw [iterTick_add, h, iterTick_nil]

theorem list_terminates (env : SimEnv) (delta : ℚ) :
    ∀ (l : List Path), (∀ p ∈ l, ∃ k, iterTick env delta k [p] = []) →
      ∃ k, iterTick env delta k l = [] := by
  intro l
  induction l with
  | nil => intro _; exact ⟨0, rfl⟩
  | cons p rest ih =>
    intro h
    obtain ⟨kp, hkp⟩ := h p (List.mem_cons_self _ _)
    obtain ⟨kr, hkr⟩ := ih (fun x hx => h x (List.mem_cons_of_mem _ hx))
    refine ⟨kr + kp, ?_⟩
    have hsingle : iterTick env delta (kr + kp) [p] = [] :=
      iterTick_empty_of_le env delta kp kr [p] hkp
    have hrest : iterTick env delta (kr + kp) rest = [] := by
      rw [Nat.add_comm]
      exact iterTick_empty_of_le env delta kr kp rest hkr
    have : (p :: rest) = [p] ++ rest := rfl
    rw [this, iterTick_append, hsingle, hrest]
    rfl

/-- The hypotheses of the (amended) termination claim, over an
edge-closed set `R` of node ids that contains every node tokens can
occupy: positive effective dt, rank strictly decreasing along edges out
of `R` (acyclicity) with positive transit times, and positive adjusted
cycle times for `R`-nodes and for the children of `R`-group-keys. -/
structure TermAssumptions (env : SimEnv) (delta : ℚ) (R : List String)
    (rank : String → Nat) : Prop where
  dt_pos : 0 < delta * env.simulationSpeed
  edge_closed : ∀ n ∈ R, ∀ t ∈ edgeMapGetD env.edges n,
    t.1 ∈ R ∧ rank t.1 < rank n ∧ 0 < t.2
  cyc_pos : ∀ n ∈ R, ∀ nd, mapGet (buildNodeDataMap env.nodes) n = some nd →
    0 < adjustedCycle nd
  child_pos : ∀ n ∈ R, ∀ cs,
    mapGet (buildGroupChildrenMap env.nodes) n = some cs →
    ∀ c ∈ cs, ∀ cd, mapGet (buildNodeDataMap env.nodes) c = some cd →
      0 < adjustedCycle cd

/-- The token shapes the engine actually produces: finite progress, the
occupied/targeted node inside `R`, and a `groupChildren` field that is
either absent (arrival tokens) or the group-children-map entry of the
token's node (start tokens). -/
def TokOK (env : SimEnv) (R : List String) (p : Path) : Prop :=
  (p.inTransit = true → p.transitTo ∈ R ∧ ∃ q : ℚ, p.transitProgress = .fin q) ∧
  (p.inTransit = false → p.nodeId ∈ R ∧ (∃ q : ℚ, p.progress = .fin q) ∧
    (p.groupChildren = none ∨
      p.groupChildren = mapGet (buildGroupChildrenMap env.nodes) p.nodeId))

/-- The termination measure of a token: twice the rank of the node it
occupies or is heading to, plus one while still in transit. -/
def tokMeasure (rank : String → Nat) (p : Path) : Nat :=
  if p.inTransit then 2 * rank p.transitTo + 1 else 2 * rank p.nodeId

theorem atNodeNewProgress_fin (env : SimEnv) (delta : ℚ) (nd : NodeData)
    (p : Path) (q d : ℚ) (hq : p.progress = .fin q)
    (hd : cycleDuration env nd p = .fin d) (hne : d ≠ 0) :
    atNodeNewProgress env delta nd p =
      .fin (q + delta * env.simulationSpeed / d) := by
  rw [atNodeNewProgress, hq, hd, effDt]
  simp [jadd, jdiv, hne]

/-- Progress phase at a node: once enough ticks have passed for the
fixed positive increment to push progress past 1, the token fans out
into its node's adjacency list. -/
theorem atNode_phase (env : SimEnv) (delta : ℚ) (nd : NodeData) (p : Path)
    (d : ℚ) (hin : p.inTransit = false)
    (hnd : mapGet (buildNodeDataMap env.nodes) p.nodeId = some nd)
    (hd : cycleDuration env nd p = .fin d) (hdpos : 0 < d)
    (hdt : 0 < delta * env.simulationSpeed) :
    ∀ (m : ℕ) (q : ℚ),
      1 ≤ q + (m + 1) * (delta * env.simulationSpeed / d) →
      ∃ j, iterTick env delta j [{ p with progress := .fin q }] =
        (edgeMapGetD env.edges p.nodeId).map (fanOutPath env p.nodeId) := by
  have hinc : 0 < delta * env.simulationSpeed / d := div_pos hdt hdpos
  intro m
  induction m with
  | zero =>
    intro q hq1
    have hnew : atNodeNewProgress env delta nd { p with progress := .fin q } =
        .fin (q + delta * env.simulationSpeed / d) :=
      atNodeNewProgress_fin env delta nd _ q d rfl hd (ne_of_gt hdpos)
    have hdone : jge (atNodeNewProgress env delta nd
        { p with progress := .fin q }) (.fin 1) = true := by
      rw [hnew]
      simp only [jge, jle, decide_eq_true_eq]
      linarith [hq1]
    refine ⟨1, ?_⟩
    show iterTick env delta 0 (tickPaths env delta [{ p with progress := .fin q }]) = _
    rw [tickPaths_singleton,
      stepPath_atNode_complete env delta { p with progress := .fin q } nd hin
        hnd hdone]
    rfl
  | succ m ih =>
    intro q hq1
    by_cases hcmp : 1 ≤ q + delta * env.simulationSpeed / d
    · have hnew : atNodeNewProgress env delta nd { p with progress := .fin q } =
          .fin (q + delta * env.simulationSpeed / d) :=
        atNodeNewProgress_fin env delta nd _ q d rfl hd (ne_of_gt hdpos)
      have hdone : jge (atNodeNewProgress env delta nd
          { p with progress := .fin q }) (.fin 1) = true := by
        rw [hnew]
        simp only [jge, jle, decide_eq_true_eq]
        linarith
      refine ⟨1, ?_⟩
      show iterTick env delta 0 (tickPaths env delta [{ p with progress := .fin q }]) = _
      rw [tickPaths_singleton,
        stepPath_atNode_complete env delta { p with progress := .fin q } nd hin
        hnd hdone]
      rfl
    · have hnew : atNodeNewProgress env delta nd { p with progress := .fin q } =
          .fin (q + delta * env.simulationSpeed / d) :=
        atNodeNewProgress_fin env delta nd _ q d rfl hd (ne_of_gt hdpos)
      have hstay : jge (atNodeNewProgress env delta nd
          { p with progress := .fin q }) (.fin 1) = false := by
        rw [hnew]
        simp only [jge, jle, decide_eq_false_iff_not]
        exact hcmp
      obtain ⟨j, hj⟩ := ih (q + delta * env.simulationSpeed / d)
        (by push_cast at hq1 ⊢; linarith)
      refine ⟨j + 1, ?_⟩
      show iterTick env delta j (tickPaths env delta [{ p with progress := .fin q }]) = _
      rw [tickPaths_singleton,
        stepPath_atNode_stay env delta { p with progress := .fin q } nd hin
          hnd hstay]
      rw [hnew]
      exact hj

theorem transitNewProgress_fin (env : SimEnv) (delta : ℚ) (p : Path) (q : ℚ)
    (hq : p.transitProgress = .fin q) (hne : p.transitTime ≠ 0) :
    transitNewProgress env delta p =
      .fin (q + delta * env.simulationSpeed / p.transitTime) := by
  rw [transitNewProgress, hq, effDt]
  simp [jadd, jdiv, hne]

/-- Transit phase: an in-transit token eventually becomes exactly its
arrival token (immediately when `transitTime ≤ 0`, else once the fixed
positive increment pushes `transitProgress` past 1). -/
theorem transit_phase (env : SimEnv) (delta : ℚ) (p : Path)
    (hin : p.inTransit = true) (hdt : 0 < delta * env.simulationSpeed) :
    ∀ q : ℚ, p.transitProgress = .fin q →
      ∃ j, iterTick env delta j [p] = [arrivalPath p] := by
  by_cases htt : p.transitTime ≤ 0
  · intro q _
    have harr : transitArrives env delta p = true := by
      simp [transitArrives, htt]
    refine ⟨1, ?_⟩
    show iterTick env delta 0 (tickPaths env delta [p]) = _
    rw [tickPaths_singleton, stepPath_transit_arrive env delta p hin harr]
    rfl
  · have httpos : 0 < p.transitTime := lt_of_not_le htt
    have hne : p.transitTime ≠ 0 := ne_of_gt httpos
    have hinc : 0 < delta * env.simulationSpeed / p.transitTime :=
      div_pos hdt httpos
    -- inner induction on the number of remaining increments, over the
    -- tokens `{ p with transitProgress := .fin q }` (same transit data)
    have main : ∀ (m : ℕ) (q : ℚ),
        1 ≤ q + (m + 1) * (delta * env.simulationSpeed / p.transitTime) →
        ∃ j, iterTick env delta j [{ p with transitProgress := .fin q }] =
          [arrivalPath p] := by
      intro m
      induction m with
      | zero =>
        intro q hq1
        have hnew : transitNewProgress env delta
            { p with transitProgress := .fin q } =
            .fin (q + delta * env.simulationSpeed / p.transitTime) :=
          transitNewProgress_fin env delta _ q rfl hne
        have harr : transitArrives env delta
            { p with transitProgress := .fin q } = true := by
          rw [transitArrives, hnew]
          simp only [jge, jle, Bool.or_eq_true, decide_eq_true_eq]
          left
          linarith [hq1]
        refine ⟨1, ?_⟩
        show iterTick env delta 0
          (tickPaths env delta [{ p with transitProgress := .fin q }]) = _
        rw [tickPaths_singleton, stepPath_transit_arrive env delta
          { p with transitProgress := .fin q } hin harr]
        rfl
      | succ m ih =>
        intro q hq1
        by_cases hcmp : 1 ≤ q + delta * env.simulationSpeed / p.transitTime
        · have hnew : transitNewProgress env delta
              { p with transitProgress := .fin q } =
              .fin (q + delta * env.simulationSpeed / p.transitTime) :=
            transitNewProgress_fin env delta _ q rfl hne
          have harr : transitArrives env delta
              { p with transitProgress := .fin q } = true := by
            rw [transitArrives, hnew]
            simp only [jge, jle, Bool.or_eq_true, decide_eq_true_eq]
            left
            linarith
          refine ⟨1, ?_⟩
          show iterTick env delta 0
            (tickPaths env delta [{ p with transitProgress := .fin q }]) = _
          rw [tickPaths_singleton, stepPath_transit_arrive env delta
            { p with transitProgress := .fin q } hin harr]
          rfl
        · have hnew : transitNewProgress env delta
              { p with transitProgress := .fin q } =
              .fin (q + delta * env.simulationSpeed / p.transitTime) :=
            transitNewProgress_fin env delta _ q rfl hne
          have harr : transitArrives env delta
              { p with transitProgress := .fin q } = false := by
            rw [transitArrives, hnew]
            simp only [jge, jle, Bool.or_eq_false_iff, decide_eq_false_iff_not]
            exact ⟨hcmp, htt⟩
          obtain ⟨j, hj⟩ := ih (q + delta * env.simulationSpeed / p.transitTime)
            (by push_cast at hq1 ⊢; linarith)
          refine ⟨j + 1, ?_⟩
          show iterTick env delta j
            (tickPaths env delta [{ p with transitProgress := .fin q }]) = _
          rw [tickPaths_singleton, stepPath_transit_stay env delta
            { p with transitProgress := .fin q } hin harr, hnew]
          exact hj
    intro q hq
    -- choose m large enough by the Archimedean property
    obtain ⟨m, hm⟩ := exists_nat_ge
      ((1 - q) / (delta * env.simulationSpeed / p.transitTime))
    have hq1 : 1 ≤ q + (m + 1) * (delta * env.simulationSpeed / p.transitTime) := by
      have h1 : 1 - q ≤ m * (delta * env.simulationSpeed / p.transitTime) :=
        (div_le_iff₀ hinc).mp hm
      have : (0:ℚ) < delta * env.simulationSpeed / p.transitTime := hinc
      nlinarith
    obtain ⟨j, hj⟩ := main m q hq1
    refine ⟨j, ?_⟩
    have : { p with transitProgress := .fin q } = p := by rw [← hq]
    rw [← this]
    exact hj

/-- Single-token termination: under the termination assumptions, a
well-shaped token is eventually consumed, by strong induction on the
rank-based measure (a transit token arrives and becomes an `AtNode`
token of smaller measure; an `AtNode` token completes and fans out into
tokens of strictly smaller rank, or is an orphan and is dropped). -/
theorem tok_terminates (env : SimEnv) (delta : ℚ) (R : List String)
    (rank : String → Nat) (A : TermAssumptions env delta R rank) :
    ∀ (N : ℕ) (p : Path), TokOK env R p → tokMeasure rank p ≤ N →
      ∃ k, iterTick env delta k [p] = [] := by
  intro N
  induction N using Nat.strong_induction_on with
  | _ N ih =>
    intro p hok hN
    cases hin : p.inTransit with
    | true =>
      obtain ⟨htoR, q, hq⟩ := hok.1 hin
      obtain ⟨j, hj⟩ := transit_phase env delta p hin A.dt_pos q hq
      have harrOK : TokOK env R (arrivalPath p) := by
        refine ⟨fun h => absurd h (by simp [arrivalPath]), fun _ => ?_⟩
        exact ⟨htoR, ⟨0, rfl⟩, Or.inl rfl⟩
      have hmeas : tokMeasure rank (arrivalPath p) < N := by
        have h1 : tokMeasure rank p = 2 * rank p.transitTo + 1 := by
          simp [tokMeasure, hin]
        have h2 : tokMeasure rank (arrivalPath p) = 2 * rank p.transitTo := by
          simp [tokMeasure, arrivalPath]
        omega
      obtain ⟨k, hk⟩ := ih (tokMeasure rank (arrivalPath p)) hmeas
        (arrivalPath p) harrOK (le_refl _)
      refine ⟨k + j, ?_⟩
      rw [iterTick_add, hj, hk]
    | false =>
      obtain ⟨hmem, ⟨q, hq⟩, hgc⟩ := hok.2 hin
      cases hnd : mapGet (buildNodeDataMap env.nodes) p.nodeId with
      | none =>
        refine ⟨1, ?_⟩
        show iterTick env delta 0 (tickPaths env delta [p]) = []
        rw [tickPaths_singleton, stepPath_atNode_orphan env delta p hin hnd]
        rfl
      | some nd =>
        have hpos : 0 < adjustedCycle nd := A.cyc_pos p.nodeId hmem nd hnd
        have hchild : ∀ c ∈ p.groupChildren.getD [], ∀ cd,
            mapGet (buildNodeDataMap env.nodes) c = some cd →
            0 < adjustedCycle cd := by
          rcases hgc with hnone | hmap
          · rw [hnone]
            intro c hc
            simp at hc
          · rw [hmap]
            cases hcs : mapGet (buildGroupChildrenMap env.nodes) p.nodeId with
            | none => intro c hc; simp at hc
            | some cs =>
              intro c hc cd hcd
              exact A.child_pos p.nodeId hmem cs hcs c (by simpa using hc)
                cd hcd
        obtain ⟨d, hd, hdpos⟩ := cycleDuration_pos env nd p hpos hchild
        obtain ⟨m, hm⟩ := exists_nat_ge
          ((1 - q) / (delta * env.simulationSpeed / d))
        have hinc : 0 < delta * env.simulationSpeed / d :=
          div_pos A.dt_pos hdpos
        have hq1 : 1 ≤ q + (m + 1) * (delta * env.simulationSpeed / d) := by
          have h1 : 1 - q ≤ m * (delta * env.simulationSpeed / d) :=
            (div_le_iff₀ hinc).mp hm
          nlinarith
        obtain ⟨j, hj⟩ :=
          atNode_phase env delta nd p d hin hnd hd hdpos A.dt_pos m q hq1
        have hpself : { p with progress := .fin q } = p := by rw [← hq]
        rw [hpself] at hj
        -- every fan-out token terminates by the induction hypothesis
        have hfan : ∀ x ∈ (edgeMapGetD env.edges p.nodeId).map
            (fanOutPath env p.nodeId), ∃ k, iterTick env delta k [x] = [] := by
          intro x hx
          rw [List.mem_map] at hx
          obtain ⟨t, ht, rfl⟩ := hx
          obtain ⟨htR, htrank, -⟩ := A.edge_closed p.nodeId hmem t ht
          have hxok : TokOK env R (fanOutPath env p.nodeId t) := by
            refine ⟨fun _ => ⟨htR, ⟨0, rfl⟩⟩,
              fun h => absurd h (by simp [fanOutPath])⟩
          have hxmeas : tokMeasure rank (fanOutPath env p.nodeId t) < N := by
            have h1 : tokMeasure rank p = 2 * rank p.nodeId := by
              simp [tokMeasure, hin]
            have h2 : tokMeasure rank (fanOutPath env p.nodeId t) =
                2 * rank t.1 + 1 := by
              simp [tokMeasure, fanOutPath]
            omega
          exact ih (tokMeasure rank (fanOutPath env p.nodeId t)) hxmeas
            (fanOutPath env p.nodeId t) hxok (le_refl _)
        obtain ⟨k, hk⟩ := list_terminates env delta _ hfan
        refine ⟨k + j, ?_⟩
        rw [iterTick_add, hj, hk]

/-- C7 (amended, proved).  For every graph whose run starts (a start
node exists), repeated ticks with a uniformly positive effective dt
eventually empty the active token set, provided the positivity and
acyclicity hypotheses hold over an edge-closed set `R` containing the
start nodes — i.e. over every node tokens can actually occupy, which
(by the C2 counterexample) can be a strict superset of the computed
reachable set: rank strictly decreasing along edges (no reachable edge
cycle), positive transit times, and positive adjusted cycle times for
`R`-nodes and the children of `R`-group-keys. -/
theorem c7_amended_termination (env : SimEnv) (delta : ℚ) (R : List String)
    (rank : String → Nat) (A : TermAssumptions env delta R rank)
    (hstart : ∀ s ∈ startNodeIds env.nodes env.edges, s ∈ R)
    (init : List Path)
    (hinit : startSimulation env.nodes env.edges = some init) :
    ∃ k, iterTick env delta k init = [] := by
  apply list_terminates
  intro p hp
  rw [startSimulation] at hinit
  split at hinit
  · exact absurd hinit (by simp)
  · obtain rfl : (startNodeIds env.nodes env.edges).map (mkStartPath env.nodes)
        = init := Option.some_injective _ hinit
    rw [List.mem_map] at hp
    obtain ⟨id, hid, rfl⟩ := hp
    have hok : TokOK env R (mkStartPath env.nodes id) := by
      refine ⟨fun h => absurd h (by simp [mkStartPath]), fun _ => ?_⟩
      exact ⟨hstart id hid, ⟨0, rfl⟩, Or.inr rfl⟩
    exact tok_terminates env delta R rank A
      (tokMeasure rank (mkStartPath env.nodes id)) (mkStartPath env.nodes id)
      hok (le_refl _)

def c7wNodes : List FNode := [mkEquip "A" 1 1, mkEquip "B" 1 1]

def c7wEdges : List FEdge := [mkEdge "eAB" "A" "B" 1]

def c7wEnv : SimEnv := ⟨c7wNodes, c7wEdges, 1⟩

def c7wRank : String → Nat := fun s => if s = "A" then 1 else 0

def c7wTokA : Path := ⟨"A", .fin 0, false, "", 0, .fin 0, some false, none⟩

theorem c7wAdjA : edgeMapGetD c7wEdges "A" = [("B", 1)] := by decide

theorem c7wAdjB : edgeMapGetD c7wEdges "B" = [] := by decide

theorem c7wGcm : buildGroupChildrenMap c7wNodes = [] := by decide

theorem c7_amended_termination_witness :
    startSimulation c7wNodes c7wEdges = some [c7wTokA] ∧
    ∃ k, iterTick c7wEnv 1 k [c7wTokA] = [] := by
  have hinit : startSimulation c7wNodes c7wEdges = some [c7wTokA] := by decide
  have A : TermAssumptions c7wEnv 1 ["A", "B"] c7wRank := by
    refine ⟨by norm_num [c7wEnv], ?_, ?_, ?_⟩
    · intro n hn t ht
      rcases List.mem_cons.mp hn with rfl | hn'
      · rw [show edgeMapGetD c7wEnv.edges "A" = [("B", 1)] from c7wAdjA] at ht
        rcases List.mem_singleton.mp ht with rfl
        refine ⟨by decide, by decide, by norm_num⟩
      · rcases List.mem_singleton.mp hn' with rfl
        rw [show edgeMapGetD c7wEnv.edges "B" = [] from c7wAdjB] at ht
        simp at ht
    · intro n hn nd hnd
      rcases List.mem_cons.mp hn with rfl | hn'
      · rw [show mapGet (buildNodeDataMap c7wEnv.nodes) "A" =
            some ⟨some 1, some 1⟩ from by decide] at hnd
        obtain rfl := Option.some_injective _ hnd
        norm_num [adjustedCycle, jsOrQ]
      · rcases List.mem_singleton.mp hn' with rfl
        rw [show mapGet (buildNodeDataMap c7wEnv.nodes) "B" =
            some ⟨some 1, some 1⟩ from by decide] at hnd
        obtain rfl := Option.some_injective _ hnd
        norm_num [adjustedCycle, jsOrQ]
    · intro n _ cs hcs
      rw [show buildGroupChildrenMap c7wEnv.nodes = [] from c7wGcm] at hcs
      exact absurd hcs (by simp [mapGet])
  have hstart : ∀ s ∈ startNodeIds c7wEnv.nodes c7wEdges, s ∈ ["A", "B"] := by
    intro s hs
    rw [show startNodeIds c7wEnv.nodes c7wEdges = ["A"] from by decide] at hs
    rcases List.mem_singleton.mp hs with rfl
    decide
  exact ⟨hinit,
    c7_amended_termination c7wEnv 1 ["A", "B"] c7wRank A hstart [c7wTokA] hinit⟩

/-! ### C7 counterexample.

`S → G(group, child C, positive cycle time) ; G → C ; C → D`.  The walk
cuts at `C` (first seen as a group child), so `D` is outside the
computed reachable set and the claim's hypotheses say nothing about it;
giving `D` cycle time `-1` keeps every *reachable* cycle/transit time
positive and the graph acyclic, yet the unit reaches `D` after six
ticks and its progress then decreases forever: the active set never
empties. -/

def c7nodes : List FNode :=
  [mkEquip "S" 1 1,
   ⟨"G", "group", none, ⟨some 1, some 1⟩⟩,
   ⟨"C", "equipment", some "G", ⟨some 1, some 1⟩⟩,
   ⟨"D", "equipment", none, ⟨some (-1), some 1⟩⟩]

def c7edges : List FEdge :=
  [mkEdge "eSG" "S" "G" 1, mkEdge "eGC" "G" "C" 1, mkEdge "eCD" "C" "D" 1]

def c7env : SimEnv := ⟨c7nodes, c7edges, 1⟩

def c7init : List Path := (startSimulation c7nodes c7edges).getD []

def c7rank : String → Nat := fun s =>
  if s = "S" then 3 else if s = "G" then 2 else if s = "C" then 1 else 0

def c7pS : Path := ⟨"S", .fin 0, false, "", 0, .fin 0, some false, none⟩

def c7tSG : Path := ⟨"S", .fin 1, true, "G", 1, .fin 0, some true, some ["C"]⟩

def c7pG : Path := ⟨"G", .fin 0, false, "", 0, .fin 0, none, none⟩

def c7tGC : Path := ⟨"G", .fin 1, true, "C", 1, .fin 0, some false, none⟩

def c7pC : Path := ⟨"C", .fin 0, false, "", 0, .fin 0, none, none⟩

def c7tCD : Path := ⟨"C", .fin 1, true, "D", 1, .fin 0, some false, none⟩

def c7pD (q : ℚ) : Path := ⟨"D", .fin q, false, "", 0, .fin 0, none, none⟩

theorem c7initEq : c7init = [c7pS] := by decide

theorem c7ndmS : mapGet (buildNodeDataMap c7nodes) "S" =
    some ⟨some 1, some 1⟩ := by decide

theorem c7ndmG : mapGet (buildNodeDataMap c7nodes) "G" =
    some ⟨some 1, some 1⟩ := by decide

theorem c7ndmC : mapGet (buildNodeDataMap c7nodes) "C" =
    some ⟨some 1, some 1⟩ := by decide

theorem c7ndmD : mapGet (buildNodeDataMap c7nodes) "D" =
    some ⟨some (-1), some 1⟩ := by decide

theorem c7adjS : edgeMapGetD c7edges "S" = [("G", 1)] := by decide

theorem c7adjG : edgeMapGetD c7edges "G" = [("C", 1)] := by decide

theorem c7adjC : edgeMapGetD c7edges "C" = [("D", 1)] := by decide

theorem c7gcmG : mapGet (buildGroupChildrenMap c7nodes) "G" =
    some ["C"] := by decide

theorem c7gcmC : mapGet (buildGroupChildrenMap c7nodes) "C" = none := by decide

theorem c7gcmD : mapGet (buildGroupChildrenMap c7nodes) "D" = none := by decide

theorem c7igG : isGroupNode c7nodes "G" = true := by decide

theorem c7igC : isGroupNode c7nodes "C" = false := by decide

theorem c7igD : isGroupNode c7nodes "D" = false := by decide

theorem c7t1 : tickPaths c7env 1 [c7pS] = [c7tSG] := by
  norm_num [tickPaths, stepPath, List.flatMap, atNodeNewProgress,
    cycleDuration, adjustedCycle, effDt, jadd, jdiv, jge, jle, jsOrQ,
    fanOutPath, c7pS, c7tSG, c7ndmS, c7adjS, c7gcmG, c7igG, c7env]

theorem c7t2 : tickPaths c7env 1 [c7tSG] = [c7pG] := by
  norm_num [tickPaths, stepPath, List.flatMap, transitArrives,
    transitNewProgress, arrivalPath, effDt, jadd, jdiv, jge, jle,
    c7tSG, c7pG, c7env, c7edges, mkEdge, List.find?]

theorem c7t3 : tickPaths c7env 1 [c7pG] = [c7tGC] := by
  norm_num [tickPaths, stepPath, List.flatMap, atNodeNewProgress,
    cycleDuration, adjustedCycle, effDt, jadd, jdiv, jge, jle, jsOrQ,
    fanOutPath, c7pG, c7tGC, c7ndmG, c7adjG, c7gcmC, c7igC, c7env]

theorem c7t4 : tickPaths c7env 1 [c7tGC] = [c7pC] := by
  norm_num [tickPaths, stepPath, List.flatMap, transitArrives,
    transitNewProgress, arrivalPath, effDt, jadd, jdiv, jge, jle,
    c7tGC, c7pC, c7env, c7edges, mkEdge, List.find?]

theorem c7t5 : tickPaths c7env 1 [c7pC] = [c7tCD] := by
  norm_num [tickPaths, stepPath, List.flatMap, atNodeNewProgress,
    cycleDuration, adjustedCycle, effDt, jadd, jdiv, jge, jle, jsOrQ,
    fanOutPath, c7pC, c7tCD, c7ndmC, c7adjC, c7gcmD, c7igD, c7env]

theorem c7t6 : tickPaths c7env 1 [c7tCD] = [c7pD 0] := by
  norm_num [tickPaths, stepPath, List.flatMap, transitArrives,
    transitNewProgress, arrivalPath, effDt, jadd, jdiv, jge, jle,
    c7tCD, c7pD, c7env, c7edges, mkEdge, List.find?]

/-- At `D` (cycle time `-1`, outside the computed reachable set) a
token's progress strictly decreases each tick while it stays `AtNode`. -/
theorem c7tickD (q : ℚ) (hq : q ≤ 0) :
    tickPaths c7env 1 [c7pD q] = [c7pD (q - 1)] := by
  have hnew : atNodeNewProgress c7env 1 ⟨some (-1), some 1⟩ (c7pD q) =
      .fin (q - 1) := by
    have : cycleDuration c7env ⟨some (-1), some 1⟩ (c7pD q) = .fin (-1) := by
      norm_num [cycleDuration, adjustedCycle, jsOrQ, c7pD]
    rw [atNodeNewProgress, this, effDt]
    norm_num [jadd, jdiv, c7pD, c7env]
    ring
  have hstay : jge (atNodeNewProgress c7env 1 ⟨some (-1), some 1⟩ (c7pD q))
      (.fin 1) = false := by
    rw [hnew]
    simp only [jge, jle, decide_eq_false_iff_not]
    intro h
    linarith
  rw [tickPaths_singleton,
    stepPath_atNode_stay c7env 1 (c7pD q) ⟨some (-1), some 1⟩ rfl c7ndmD hstay,
    hnew]
  rfl

theorem c7iterD : ∀ (j : ℕ) (q : ℚ), q ≤ 0 →
    iterTick c7env 1 j [c7pD q] = [c7pD (q - j)] := by
  intro j
  induction j with
  | zero => intro q _; show [c7pD q] = _; norm_num
  | succ j ih =>
    intro q hq
    rw [iterTick, c7tickD q hq, ih (q - 1) (by linarith)]
    have : q - 1 - (j : ℚ) = q - ((j : ℕ) + 1 : ℕ) := by push_cast; ring
    rw [this]

theorem c7afterSix : iterTick c7env 1 6 c7init = [c7pD 0] := by
  rw [c7initEq]
  show tickPaths c7env 1 (tickPaths c7env 1 (tickPaths c7env 1 (tickPaths c7env 1
    (tickPaths c7env 1 (tickPaths c7env 1 [c7pS]))))) = _
  rw [c7t1, c7t2, c7t3, c7t4, c7t5, c7t6]

theorem c7s1 : iterTick c7env 1 1 c7init = [c7tSG] := by
  rw [c7initEq]
  show tickPaths c7env 1 [c7pS] = _
  rw [c7t1]

theorem c7s2 : iterTick c7env 1 2 c7init = [c7pG] := by
  rw [c7initEq]
  show tickPaths c7env 1 (tickPaths c7env 1 [c7pS]) = _
  rw [c7t1, c7t2]

theorem c7s3 : iterTick c7env 1 3 c7init = [c7tGC] := by
  rw [c7initEq]
  show tickPaths c7env 1 (tickPaths c7env 1 (tickPaths c7env 1 [c7pS])) = _
  rw [c7t1, c7t2, c7t3]

theorem c7s4 : iterTick c7env 1 4 c7init = [c7pC] := by
  rw [c7initEq]
  show tickPaths c7env 1 (tickPaths c7env 1 (tickPaths c7env 1
    (tickPaths c7env 1 [c7pS]))) = _
  rw [c7t1, c7t2, c7t3, c7t4]

theorem c7s5 : iterTick c7env 1 5 c7init = [c7tCD] := by
  rw [c7initEq]
  show tickPaths c7env 1 (tickPaths c7env 1 (tickPaths c7env 1 (tickPaths c7env 1
    (tickPaths c7env 1 [c7pS])))) = _
  rw [c7t1, c7t2, c7t3, c7t4, c7t5]

theorem c7_never_empty : ∀ k, iterTick c7env 1 k c7init ≠ [] := by
  intro k
  rcases Nat.lt_or_ge k 6 with h | h
  · interval_cases k
    · rw [show iterTick c7env 1 0 c7init = c7init from rfl, c7initEq]; simp
    · rw [c7s1]; simp
    · rw [c7s2]; simp
    · rw [c7s3]; simp
    · rw [c7s4]; simp
    · rw [c7s5]; simp
  · obtain ⟨j, rfl⟩ : ∃ j, k = j + 6 := ⟨k - 6, by omega⟩
    rw [iterTick_add, c7afterSix, c7iterD j 0 (le_refl 0)]
    simp

/-- C7 counterexample.  The claim's hypotheses all hold on this graph —
a start node exists, the effective dt is the constant 1 > 0, a rank
strictly decreasing along *every* edge witnesses acyclicity, every node
in the computed reachable set has positive finite cycle time and
capacity, and every edge has positive transit time — and yet the active
set never empties: the unit escapes the computed reachable set into `D`
(whose cycle time the hypotheses do not constrain) and loops there. -/
theorem c7_counterexample :
    (0:ℚ) < 1 * c7env.simulationSpeed ∧
    startNodeIds c7nodes c7edges = ["S"] ∧
    (∀ e ∈ c7edges, c7rank e.target < c7rank e.source) ∧
    (∀ id ∈ connectedNodes c7nodes c7edges, ∀ nd,
      mapGet (buildNodeDataMap c7nodes) id = some nd →
      0 < jsOrQ nd.cycleTime 0 ∧ 0 < jsOrQ nd.maxCapacity 1) ∧
    (∀ e ∈ c7edges, 0 < jsOrQ e.transitTime 0) ∧
    ¬ ∃ k, iterTick c7env 1 k c7init = [] := by
  refine ⟨by norm_num [c7env], by decide, ?_, ?_, ?_, ?_⟩
  · intro e he
    simp only [c7edges, List.mem_cons, List.not_mem_nil, or_false] at he
    rcases he with rfl | rfl | rfl <;> decide
  · intro id hid nd hnd
    rw [show connectedNodes c7nodes c7edges = ["S", "G", "C"] from by decide]
      at hid
    simp only [List.mem_cons, List.not_mem_nil, or_false] at hid
    rcases hid with rfl | rfl | rfl
    · rw [c7ndmS] at hnd
      obtain rfl := Option.some_injective _ hnd
      norm_num [jsOrQ]
    · rw [c7ndmG] at hnd
      obtain rfl := Option.some_injective _ hnd
      norm_num [jsOrQ]
    · rw [c7ndmC] at hnd
      obtain rfl := Option.some_injective _ hnd
      norm_num [jsOrQ]
  · intro e he
    simp only [c7edges, List.mem_cons, List.not_mem_nil, or_false] at he
    rcases he with rfl | rfl | rfl <;> norm_num [jsOrQ, mkEdge]
  · rintro ⟨k, hk⟩
    exact c7_never_empty k hk

end FactoryFlow
